import Mathlib

/-!
# Meal timer: timeline derivation and cooking session

A shallow embedding of `src/app.js` (the meal timing coordinator) and the
properties of its timeline deriver (`computeEvents`), of its session
functions (`scheduleSession`, `stopSession`, `fireEvent`,
`recoverSessionIfAny`), of `clampInt`, and of the functions that edit the meal
and the catalog (`upsertMeal`, `importMealJSON`, `moveDish`, `moveStage`,
`updateStageField` and their siblings).

Modelling conventions.

* A `Date` is represented by its time value, an `Int` number of milliseconds
  since the epoch.  `parseServeDateTime` applies the range check of the
  `Date` constructor (`timeClip`); the `Date` objects that `computeEvents`
  builds afterwards from a cursor are read back with `getTime()` at once and
  are taken inside the representable range, where `new Date(x).getTime()` is
  `x`.
* The environment of the page is a record `Env`: the offset of local time
  from UTC in minutes (one fixed offset: no daylight-saving change inside the
  window of a meal), and the sequence of strings that successive calls of
  `uid()` return (`Math.random` and `Date.now` are not functions of the
  program state).  The number of calls made so far is threaded through the
  functions that call `uid()`.
* `Date.now()` is an argument `now` of the functions that read the clock.
* `localStorage` under `SESSION_KEY` is the field `session` of the state;
  the array `timers` together with the browser timers its handles stand for
  is the field `timers` (every `setTimeout` of the program pushes its handle
  on that array).
* Calls to `showToast`, `beep` and the repainting of the timeline are
  returned as a list of `Effect`s.
-/

namespace MealTimer

/-! ## Values read from stored documents -/

/-- A JavaScript value as it can stand in the `durationMin` field of a stored
stage: `undefined`, `null`, a boolean, a number with an integral value (`num n`
is the double nearest to `n`), or a string. -/
inductive JsVal where
  | undefined
  | null
  | bool (b : Bool)
  | num (n : Int)
  | str (s : String)
  deriving DecidableEq, Repr

/-- The operator `??`: the right operand replaces `undefined` and `null`. -/
def nullish (v d : JsVal) : JsVal :=
  match v with
  | .undefined => d
  | .null => d
  | _ => v

/-- The white space and line terminators (`StrWhiteSpaceChar`) that `parseInt`
skips at the start of its argument and that `trim` and `Number` remove from
both ends. -/
def isStrWhiteSpace (c : Char) : Bool :=
  c.toNat = 0x20 || c.toNat = 0x09 || c.toNat = 0x0A || c.toNat = 0x0D ||
  c.toNat = 0x0B || c.toNat = 0x0C || c.toNat = 0xA0 || c.toNat = 0xFEFF ||
  c.toNat = 0x2028 || c.toNat = 0x2029 || c.toNat = 0x1680 ||
  (0x2000 ≤ c.toNat && c.toNat ≤ 0x200A) ||
  c.toNat = 0x202F || c.toNat = 0x205F || c.toNat = 0x3000

/-- The characters of a string without the white space at both ends. -/
def trimChars (cs : List Char) : List Char :=
  ((cs.dropWhile isStrWhiteSpace).reverse.dropWhile isStrWhiteSpace).reverse

/-- The method `trim` of a string. -/
def jsTrim (s : String) : String :=
  String.mk (trimChars s.toList)

/-- The value of a string of decimal digits. -/
def digitsValue (cs : List Char) : Nat :=
  cs.foldl (fun acc c => acc * 10 + (c.toNat - 48)) 0

/-- The function `parseInt(s, 10)` on the characters of a string: leading white
space, an optional sign, then the longest run of decimal digits, whose value is
taken exactly; `none` is `NaN`. -/
def parseIntChars (cs : List Char) : Option Int :=
  let cs := cs.dropWhile isStrWhiteSpace
  let signed : Bool × List Char :=
    match cs with
    | [] => (false, [])
    | c :: rest =>
      if c = '-' then (true, rest) else if c = '+' then (false, rest) else (false, c :: rest)
  let ds := signed.2.takeWhile Char.isDigit
  if ds.isEmpty then none
  else some (if signed.1 then -((digitsValue ds : Nat) : Int) else ((digitsValue ds : Nat) : Int))

/-- The first decimal digit of a natural number. -/
def leadingDigit (n : Nat) : Nat :=
  ((Nat.toDigits 10 n).headD '0').toNat - 48

/-- The exponent of the highest power of two that is not above `n`, counted by
halving `n` at most `fuel` times. -/
def log2Fuel : Nat → Nat → Nat
  | 0, _ => 0
  | fuel + 1, n => if n < 2 then 0 else log2Fuel fuel (n / 2) + 1

/-- The exponent of the highest power of two that is not above `n`. -/
def floorLog2 (n : Nat) : Nat :=
  log2Fuel n n

/-- The double nearest to a natural number, ties going to the even significand;
`none` is `Infinity`, which is reached from `2^1024 - 2^970` on, that is when
the rounded significand `q1` times `2^e` is `2^1024` or more. -/
def roundToDouble (n : Nat) : Option Nat :=
  if n < 2 ^ 53 then some n
  else
    let e := floorLog2 n - 52
    let q := n / 2 ^ e
    let r := n % 2 ^ e
    let half := 2 ^ (e - 1)
    let q1 := if half < r ∨ (r = half ∧ q % 2 = 1) then q + 1 else q
    if e < 971 ∨ (e = 971 ∧ q1 < 2 ^ 53) then some (q1 * 2 ^ e) else none

/-- The search of `Number::toString` for the shortest decimal that reads back as
the double `v`, from `k` significant digits on: `lo` and `hi` are the two
decimals of `k` digits around `v`, and the one inside the rounding interval
from `low` to `high` (ends included when `closed`) that is nearest to `v` is
taken, the even one on a tie.  The result is its first digit. -/
def shortestFrom (v len low high : Nat) (closed : Bool) : Nat → Nat → Nat
  | 0, _ => leadingDigit v
  | fuel + 1, k =>
    let p := len - k
    let lo := v / 10 ^ p * 10 ^ p
    let hi := lo + 10 ^ p
    let inLo := if closed then decide (low ≤ lo) else decide (low < lo)
    let inHi := if closed then decide (hi ≤ high) else decide (hi < high)
    if inLo && inHi then
      if v - lo < hi - v then leadingDigit lo
      else if hi - v < v - lo then leadingDigit hi
      else if v / 10 ^ p % 2 = 0 then leadingDigit lo else leadingDigit hi
    else if inLo then leadingDigit lo
    else if inHi then leadingDigit hi
    else shortestFrom v len low high closed fuel (k + 1)

/-- The first digit of the string of a double `v` with an integral value of at
least `2^53`: the rounding interval of `v` reaches half the way to the next
double above and below (a quarter of the gap below when the significand is
`2^52`), and its ends read back as `v` when the significand is even. -/
def shortestLeadingDigit (v : Nat) : Nat :=
  let e := floorLog2 v - 52
  let m := v / 2 ^ e
  let up := 2 ^ (e - 1)
  let down := if m = 2 ^ 52 then 2 ^ (e - 2) else 2 ^ (e - 1)
  let len := (Nat.toDigits 10 v).length
  shortestFrom v len (v - down) (v + up) (decide (m % 2 = 0)) len 1

/-- The function `parseInt(v, 10)`: the argument is converted to a string and
its integer prefix is read.  The number `.num n` is the double nearest to `n`,
as a number literal or `JSON.parse` reads it.  Below `10^21` in absolute value
it prints in plain decimal and is read back as it is; from `10^21` on it prints
in exponent form (`"1.5e+21"`), of which `parseInt` reads the digit before the
point; `Infinity` is not read. -/
def parseInt10 : JsVal → Option Int
  | .undefined => none
  | .null => none
  | .bool _ => none
  | .num n =>
    match roundToDouble n.natAbs with
    | none => none
    | some a =>
      let v := if a < 10 ^ 21 then a else shortestLeadingDigit a
      if n < 0 then some (-((v : Nat) : Int)) else some ((v : Nat) : Int)
  | .str s => parseIntChars s.toList

/-- The function `clampInt(n, min, max)` of `app.js`. -/
def clampInt (n : JsVal) (min max : Int) : Int :=
  match parseInt10 n with
  | none => min
  | some v => Max.max min (Min.min max v)

/-! ## The meal document -/

/-- A stage of a dish. `alertStart` and `alertEnd` hold the truthiness of the
stored flags. -/
structure Stage where
  id : String
  name : String
  durationMin : JsVal
  alertStart : Bool
  alertEnd : Bool
  notes : String
  deriving DecidableEq, Repr

/-- A dish; `stages` may be missing from the document. -/
structure Dish where
  id : String
  name : String
  stages : Option (List Stage)
  deriving DecidableEq, Repr

/-- A meal; the serve date, the serve time and `dishes` may be missing. -/
structure Meal where
  id : String
  name : String
  serveDate : Option String
  serveTime : Option String
  dishes : Option (List Dish)
  deriving DecidableEq, Repr

/-- The two kinds of event; `end_` is the string `"end"`. -/
inductive EventType where
  | start
  | end_
  deriving DecidableEq, Repr

/-- An event of the timeline. -/
structure Event where
  id : String
  when : Int
  type : EventType
  dish : String
  stage : String
  notes : String
  durationMin : Int
  deriving DecidableEq, Repr

/-- The environment of the page: the offset of local time from UTC in minutes
and the strings returned by successive calls of `uid()`. -/
structure Env where
  tzOffsetMin : Int
  uid : Nat → String

/-! ## Dates -/

/-- A finite number read by `Number`, as far as the `Date` constructor looks at
it: its sign, the integer part of its absolute value, and whether a fraction is
left over. -/
structure JsNum where
  neg : Bool
  int : Nat
  frac : Bool
  deriving DecidableEq, Repr

/-- The conversion `ToIntegerOrInfinity` of a finite number: the fraction is
cut off. -/
def truncNum (x : JsNum) : Int :=
  if x.neg then -((x.int : Nat) : Int) else ((x.int : Nat) : Int)

/-- The conversion `ToIntegerOrInfinity` of `x - 1`, the month index computed
from the month `x`. -/
def truncPred (x : JsNum) : Int :=
  if x.neg then -(((x.int : Nat) : Int) + 1)
  else if x.int = 0 then (if x.frac then 0 else -1)
  else ((x.int : Nat) : Int) - 1

/-- The value of a digit in a radix up to sixteen. -/
def digitOf (c : Char) : Option Nat :=
  if 48 ≤ c.toNat ∧ c.toNat ≤ 57 then some (c.toNat - 48)
  else if 97 ≤ c.toNat ∧ c.toNat ≤ 102 then some (c.toNat - 87)
  else if 65 ≤ c.toNat ∧ c.toNat ≤ 70 then some (c.toNat - 55)
  else none

/-- The value of a non-empty string of digits of the radix; `none` when the
string is empty or has another character. -/
def radixValue (radix : Nat) (cs : List Char) : Option Nat :=
  if cs.isEmpty then none
  else
    cs.foldl (fun acc c =>
      match acc, digitOf c with
      | some a, some d => if d < radix then some (a * radix + d) else none
      | _, _ => none) (some 0)

/-- The exponent part of a decimal literal: nothing, or `e` or `E`, an optional
sign and decimal digits. -/
def exponentPart (cs : List Char) : Option Int :=
  match cs with
  | [] => some 0
  | c :: rest =>
    if c = 'e' ∨ c = 'E' then
      match rest with
      | [] => none
      | d :: ds =>
        if d = '-' then (radixValue 10 ds).map (fun v => -((v : Nat) : Int))
        else if d = '+' then (radixValue 10 ds).map (fun v => ((v : Nat) : Int))
        else (radixValue 10 (d :: ds)).map (fun v => ((v : Nat) : Int))
    else none

/-- An unsigned decimal literal (`StrUnsignedDecimalLiteral`): digits, an
optional point with digits after it, and an optional exponent; there must be a
digit before the exponent.  The word `Infinity` is not a finite number. -/
def decimalLiteral (cs : List Char) : Option JsNum :=
  let d1 := cs.takeWhile Char.isDigit
  let r1 := cs.dropWhile Char.isDigit
  let afterPoint : List Char × List Char :=
    match r1 with
    | [] => ([], [])
    | c :: t => if c = '.' then (t.takeWhile Char.isDigit, t.dropWhile Char.isDigit) else ([], r1)
  let d2 := afterPoint.1
  if d1.isEmpty ∧ d2.isEmpty then none
  else
    match exponentPart afterPoint.2 with
    | none => none
    | some e =>
      let digits := digitsValue (d1 ++ d2)
      let shift : Int := e - ((d2.length : Nat) : Int)
      if 0 ≤ shift then some (JsNum.mk false (digits * 10 ^ shift.toNat) false)
      else
        some (JsNum.mk false (digits / 10 ^ (-shift).toNat)
          (decide (digits % 10 ^ (-shift).toNat ≠ 0)))

/-- The function `Number` on a string (`StringToNumber`), as far as the `Date`
constructor looks at the result: white space is removed from both ends, the
empty string is `0`, a literal with the prefix `0x`, `0o` or `0b` is read in its
radix, and anything else is a decimal literal with an optional sign; `none` is
`NaN` or an infinity.  The value of a decimal literal is taken exactly: its
rounding to a double, which can change the integer part only for a fraction
within `2^-53` of the next integer, is left out. -/
def toNumber (cs : List Char) : Option JsNum :=
  match trimChars cs with
  | [] => some (JsNum.mk false 0 false)
  | c :: rest =>
    let radix : Option Nat :=
      match rest with
      | [] => none
      | x :: _ =>
        if c = '0' ∧ (x = 'x' ∨ x = 'X') then some 16
        else if c = '0' ∧ (x = 'o' ∨ x = 'O') then some 8
        else if c = '0' ∧ (x = 'b' ∨ x = 'B') then some 2
        else none
    match radix with
    | some r => (radixValue r (rest.drop 1)).map (fun v => JsNum.mk false v false)
    | none =>
      if c = '-' then (decimalLiteral rest).map (fun x => { x with neg := true })
      else if c = '+' then decimalLiteral rest
      else decimalLiteral (c :: rest)

/-- The method `split` with a separator of one character. -/
def splitChars (sep : Char) : List Char → List (List Char)
  | [] => [[]]
  | c :: cs =>
    if c = sep then [] :: splitChars sep cs
    else
      match splitChars sep cs with
      | [] => [[c]]
      | p :: ps => (c :: p) :: ps

/-- The element of index `i` of a destructured array of numbers; a missing
element is `undefined`, which the `Date` constructor turns into `NaN`. -/
def field (parts : List (Option JsNum)) (i : Nat) : Option JsNum :=
  (parts.get? i).bind id

/-- The number of days from 1970-01-01 to the given day of the proleptic
Gregorian calendar (month `1` to `12`). -/
def daysFromCivil (y m d : Int) : Int :=
  let y1 := if m ≤ 2 then y - 1 else y
  let era := y1 / 400
  let yoe := y1 - era * 400
  let mp := (m + 9) % 12
  let doy := (153 * mp + 2) / 5 + d - 1
  let doe := yoe * 365 + yoe / 4 - yoe / 100 + doy
  era * 146097 + doe - 719468

/-- The range check of a time value (`TimeClip`): `none` is an invalid date. -/
def timeClip (t : Int) : Option Int :=
  if t.natAbs ≤ 8640000000000000 then some t else none

/-- The constructor `new Date(Y, monthIndex, D, h, m, 0, 0)` in local time, as
a time value, on arguments that are integers already: years `0` to `99` stand
for `1900` to `1999`, a month index outside `0..11` carries into the year, and
the day, hour and minute are added as offsets. -/
def makeLocalDate (tz Y monthIndex D h m : Int) : Option Int :=
  let yr := if 0 ≤ Y ∧ Y ≤ 99 then 1900 + Y else Y
  let ym := yr + monthIndex / 12
  let mn := monthIndex % 12
  let day := daysFromCivil ym (mn + 1) 1 + D - 1
  let localMs := day * 86400000 + h * 3600000 + m * 60000
  timeClip (localMs - tz * 60000)

/-- The function `parseServeDateTime(dateStr, timeStr)` of `app.js`; `none` is
`null`. -/
def parseServeDateTime (env : Env) (dateStr timeStr : Option String) : Option Int :=
  match dateStr, timeStr with
  | some ds, some ts =>
    if ds = "" ∨ ts = "" then none
    else
      let dparts := (splitChars '-' ds.toList).map toNumber
      let tparts := (splitChars ':' ts.toList).map toNumber
      match field dparts 0, field dparts 1, field dparts 2, field tparts 0, field tparts 1 with
      | some Y, some M, some D, some h, some m =>
        makeLocalDate env.tzOffsetMin (truncNum Y) (truncPred M) (truncNum D) (truncNum h)
          (truncNum m)
      | _, _, _, _, _ => none
  | _, _ => none

/-- The function `pad2(n)` of `app.js`. -/
def pad2 (n : Int) : String :=
  let s := toString n
  if s.length < 2 then "0" ++ s else s

/-- The function `toTimeLabel(d)` of `app.js`: hours and minutes of the local
time of day. -/
def toTimeLabel (env : Env) (t : Int) : String :=
  let localMs := t + env.tzOffsetMin * 60000
  pad2 ((localMs / 3600000) % 24) ++ ":" ++ pad2 ((localMs / 60000) % 60)

/-! ## The timeline deriver -/

/-- The expression `s || ""` on a string. -/
def orEmpty (s : String) : String :=
  if s = "" then "" else s

/-- The clamped duration of a stage, `clampInt(stage.durationMin ?? 0, 0, 2000)`. -/
def stageMinutes (stage : Stage) : Int :=
  clampInt (nullish stage.durationMin (.num 0)) 0 2000

/-- The body of the inner `forEach` of `computeEvents` for one stage: the events
pushed for the stage when the cursor is at `cursor` and `k` calls of `uid()`
have been made, with the number of calls made afterwards. -/
def pushStage (env : Env) (dishName : String) (cursor : Int) (stage : Stage) (k : Nat) :
    List Event × Nat :=
  let durMin := clampInt (nullish stage.durationMin (.num 0)) 0 2000
  let start := cursor
  let end_ := cursor + durMin * 60000
  let r1 : List Event × Nat :=
    if stage.alertStart then
      ([Event.mk (env.uid k) start .start dishName stage.name (orEmpty stage.notes) durMin], k + 1)
    else ([], k)
  let r2 : List Event × Nat :=
    if stage.alertEnd then
      ([Event.mk (env.uid r1.2) end_ .end_ dishName stage.name (orEmpty stage.notes) durMin],
        r1.2 + 1)
    else ([], r1.2)
  (r1.1 ++ r2.1, r2.2)

/-- The inner `forEach` of `computeEvents`: the stages of one dish are walked in
order from `cursor`, which advances by the clamped duration of each stage. -/
def walkStages (env : Env) (dishName : String) : List Stage → Int → Nat → List Event × Nat
  | [], _, k => ([], k)
  | stage :: rest, cursor, k =>
    let r := pushStage env dishName cursor stage k
    let durMin := clampInt (nullish stage.durationMin (.num 0)) 0 2000
    let r2 := walkStages env dishName rest (cursor + durMin * 60000) r.2
    (r.1 ++ r2.1, r2.2)

/-- The sum `totalMin` of the clamped durations of a list of stages (the
`reduce` of `computeEvents`). -/
def totalMin (stages : List Stage) : Int :=
  stages.foldl (fun sum s => sum + clampInt (nullish s.durationMin (.num 0)) 0 2000) 0

/-- The body of the outer `forEach` of `computeEvents` for one dish: the events
of the dish for the serve instant `serveDt`. -/
def dishEvents (env : Env) (serveDt : Int) (dish : Dish) (k : Nat) : List Event × Nat :=
  let stages := dish.stages.getD []
  let dishStart := serveDt - totalMin stages * 60000
  walkStages env dish.name stages dishStart k

/-- The outer `forEach` of `computeEvents`: the events of the dishes, in the
order in which they are pushed. -/
def walkDishes (env : Env) (serveDt : Int) : List Dish → Nat → List Event × Nat
  | [], k => ([], k)
  | dish :: rest, k =>
    let r := dishEvents env serveDt dish k
    let r2 := walkDishes env serveDt rest r.2
    (r.1 ++ r2.1, r2.2)

/-- The method `localeCompare` on the two type strings `"start"` and `"end"`. -/
def localeCompare : EventType → EventType → Int
  | .end_, .start => -1
  | .start, .end_ => 1
  | _, _ => 0

/-- The comparator of the sort in `computeEvents`,
`a.when - b.when || a.type.localeCompare(b.type)`. -/
def compareEvents (a b : Event) : Int :=
  if a.when - b.when ≠ 0 then a.when - b.when else localeCompare a.type b.type

/-- The order of the sort: `a` may stand before `b` when the comparator is not
positive. -/
def eventLE (a b : Event) : Prop :=
  compareEvents a b ≤ 0

instance : DecidableRel eventLE :=
  fun a b => inferInstanceAs (Decidable (compareEvents a b ≤ 0))

/-- The method `sort` with the comparator of `computeEvents`; the sort of an
array is stable. -/
def sortEvents (events : List Event) : List Event :=
  events.insertionSort eventLE

/-- The function `computeEvents()` of `app.js` on the meal `meal`, when `k` calls
of `uid()` have been made: the events, and the number of calls made
afterwards. -/
def computeEvents (env : Env) (meal : Meal) (k : Nat) : List Event × Nat :=
  match parseServeDateTime env meal.serveDate meal.serveTime with
  | none => ([], k)
  | some serveDt =>
    let r := walkDishes env serveDt (meal.dishes.getD []) k
    (sortEvents r.1, r.2)

/-! ## The cooking session -/

/-- The session record kept under `SESSION_KEY`; `firedEventIds` may be missing
from a stored record. -/
structure Session where
  mealId : String
  startedAt : Int
  serveWhen : Int
  armedAt : Int
  firedEventIds : Option (List String)
  deriving DecidableEq, Repr

/-- A one-shot timer registered with `setTimeout(() => fireEvent(ev), delay)`. -/
structure Timer where
  delay : Int
  ev : Event
  deriving DecidableEq, Repr

/-- A side effect on the page: a call of `showToast`, a call of `beep`
(duration and delay in milliseconds, frequency in hertz), or a repainting of
the timeline. -/
inductive Effect where
  | toast (title body : String)
  | beep (durationMs freq delayMs : Nat)
  | timeline
  deriving DecidableEq, Repr

/-- The state of the page: the global variables `meals`, `meal`, `timers` and
`tickInterval`, the stored session, the `disabled` flags of the two session
buttons, the number of calls of `uid()` made so far, and the identifier stored
under `ACTIVE_KEY`. -/
structure AppState where
  meals : List Meal
  meal : Meal
  session : Option Session
  timers : List Timer
  tickInterval : Bool
  startBtnDisabled : Bool
  stopBtnDisabled : Bool
  uidCalls : Nat
  activeMealId : Option String
  deriving DecidableEq, Repr

/-- The function `renderTimeline()` as far as the state goes: it calls
`computeEvents()` and repaints the timeline. -/
def renderTimeline (env : Env) (s : AppState) : AppState × List Effect :=
  ({ s with uidCalls := (computeEvents env s.meal s.uidCalls).2 }, [Effect.timeline])

/-- The function `clearTimers()` of `app.js`. -/
def clearTimers (s : AppState) : AppState :=
  { s with timers := [], tickInterval := false }

/-- The loop `events.forEach(ev => ...)` of `scheduleSession` and of
`recoverSessionIfAny`: an event before `now` is skipped, any other gets a timer
pushed on `timers`. -/
def armTimers (now : Int) : List Event → List Timer → List Timer
  | [], timers => timers
  | ev :: rest, timers =>
    if ev.when < now then armTimers now rest timers
    else armTimers now rest (timers ++ [Timer.mk (ev.when - now) ev])

/-- The function `scheduleSession()` of `app.js` at the time `now`. -/
def scheduleSession (env : Env) (now : Int) (s : AppState) : AppState × List Effect :=
  match parseServeDateTime env s.meal.serveDate s.meal.serveTime with
  | none => (s, [Effect.toast "Serve time missing" "Set serve date/time on the Dishes tab."])
  | some serveDt =>
    let r := computeEvents env s.meal s.uidCalls
    let events := r.1
    let s0 := { s with uidCalls := r.2 }
    if events.length = 0 then
      (s0, [Effect.toast "Nothing to schedule" "Add at least one stage with alerts enabled."])
    else
      let s1 := clearTimers s0
      let session := Session.mk s1.meal.id now serveDt now (some [])
      let s2 := { s1 with session := some session }
      let s3 := { s2 with timers := armTimers now events s2.timers }
      let s4 := { s3 with startBtnDisabled := true, stopBtnDisabled := false }
      let s5 := { s4 with tickInterval := true }
      let r6 := renderTimeline env s5
      (r6.1, r6.2 ++ [Effect.toast "Session started"
          "You're armed. You'll get alerts at each start/end.",
        Effect.beep 80 740 0, Effect.beep 80 520 110])

/-- The function `stopSession()` of `app.js`. -/
def stopSession (s : AppState) : AppState × List Effect :=
  let s1 := clearTimers s
  let s2 := { s1 with session := none }
  ({ s2 with startBtnDisabled := false, stopBtnDisabled := true },
    [Effect.toast "Stopped" "Cooking session stopped. You can start again any time."])

/-- The part of `fireEvent(ev)` after the guard: the sound pattern, the toast
and the repainting of the timeline. -/
def notify (env : Env) (ev : Event) (s : AppState) : AppState × List Effect :=
  let pill := if ev.type = EventType.start then "START" else "END"
  let title := pill ++ ": " ++ ev.dish
  let body := toTimeLabel env ev.when ++ " — " ++ ev.stage ++
    (if ev.notes ≠ "" then "\n" ++ ev.notes else "")
  let beeps :=
    if ev.type = EventType.start then [Effect.beep 70 880 0, Effect.beep 70 660 100]
    else [Effect.beep 90 520 0, Effect.beep 90 520 120, Effect.beep 90 420 240]
  let r := renderTimeline env s
  (r.1, beeps ++ [Effect.toast title body] ++ r.2)

/-- The function `fireEvent(ev)` of `app.js`. -/
def fireEvent (env : Env) (ev : Event) (s : AppState) : AppState × List Effect :=
  match s.session with
  | some session =>
    if ev.id ∈ session.firedEventIds.getD [] then (s, [])
    else
      let fired := session.firedEventIds.getD [] ++ [ev.id]
      notify env ev { s with session := some { session with firedEventIds := some fired } }
  | none => notify env ev s

/-- The function `recoverSessionIfAny()` of `app.js` at the time `now`. -/
def recoverSessionIfAny (env : Env) (now : Int) (s : AppState) : AppState × List Effect :=
  match s.session with
  | none => (s, [])
  | some sess =>
    if sess.mealId ≠ s.meal.id then (s, [])
    else
      let r := computeEvents env s.meal s.uidCalls
      let s1 := clearTimers { s with uidCalls := r.2 }
      let s2 := { s1 with timers := armTimers now r.1 s1.timers }
      let s3 := { s2 with startBtnDisabled := true, stopBtnDisabled := false }
      let s4 := { s3 with tickInterval := true }
      renderTimeline env s4

/-- The expiry of the registered timer of index `i`: the timer is spent and its
callback `fireEvent(ev)` runs; `none` when there is no such timer. -/
def timerExpires (env : Env) (i : Nat) (s : AppState) : Option (AppState × List Effect) :=
  match s.timers.get? i with
  | none => none
  | some t => some (fireEvent env t.ev { s with timers := s.timers.eraseIdx i })

/-! ## The meal catalog and the dish editor

The object `meal` is held by value: `meals` keeps a copy of it, which
`upsertMeal` refreshes after every change, as the assignment `meals[idx] =
updated` does.  The prompts and the confirmation dialog are arguments of the
functions that open them.  The painting of the dish editor and of the meal
selector leaves the state as it is, and `saveMeals(meals)` stores the value of
`meals`, which is not kept a second time. -/

/-- The method `findIndex`; `none` is `-1`. -/
def findIndex {α : Type} (p : α → Bool) : List α → Option Nat
  | [] => none
  | x :: xs => if p x then some 0 else (findIndex p xs).map (fun i => i + 1)

/-- The call `arr.splice(i, 0, item)`: `item` is put at index `i`, or at the end
when the array is shorter. -/
def spliceIn {α : Type} : List α → Nat → α → List α
  | l, 0, a => a :: l
  | [], _ + 1, a => [a]
  | x :: xs, n + 1, a => x :: spliceIn xs n a

/-- The element found by `find` is changed in place: the first element that
satisfies `p` is replaced by its image under `f`. -/
def modifyFirst {α : Type} (p : α → Bool) (f : α → α) : List α → List α
  | [] => []
  | x :: xs => if p x then f x :: xs else x :: modifyFirst p f xs

/-- The common body of `moveDish` and `moveStage`, from `findIndex` to the
second `splice`: the array after the move, or `none` when the function returns
before it (no element satisfies `p`, or the new index is outside the array). -/
def moveInArray {α : Type} (p : α → Bool) (dir : Int) (arr : List α) : Option (List α) :=
  match findIndex p arr with
  | none => none
  | some idx =>
    let newIdx : Int := (idx : Int) + dir
    if newIdx < 0 ∨ newIdx ≥ (arr.length : Int) then none
    else
      match arr.get? idx with
      | none => none
      | some item => some (spliceIn (arr.eraseIdx idx) newIdx.toNat item)

/-- The list with the elements at the indices `i` and `j` exchanged, when both
indices are inside the list. -/
def swapAt {α : Type} (l : List α) (i j : Nat) : List α :=
  match l.get? i, l.get? j with
  | some a, some b => (l.set i b).set j a
  | _, _ => l

/-- The conversion `!!value`. -/
def truthy : JsVal → Bool
  | .undefined => false
  | .null => false
  | .bool b => b
  | .num n => decide (n ≠ 0)
  | .str s => decide (s ≠ "")

/-- The expression `v || d` on a text field that may be missing. -/
def orDefault (v : Option String) (d : String) : String :=
  match v with
  | some s => if s = "" then d else s
  | none => d

/-- The function `upsertMeal(updated)` of `app.js`. -/
def upsertMeal (updated : Meal) (s : AppState) : AppState :=
  let meals :=
    match findIndex (fun m => m.id == updated.id) s.meals with
    | some idx => s.meals.set idx updated
    | none => updated :: s.meals
  { s with meals := meals, meal := updated, activeMealId := some updated.id }

/-- The function `setMealById(id)` of `app.js`. -/
def setMealById (env : Env) (id : String) (s : AppState) : AppState × List Effect :=
  match s.meals.find? (fun x => x.id == id) with
  | none => (s, [])
  | some m => renderTimeline env { s with meal := m, activeMealId := some m.id }

/-- The function `createNewMeal()` of `app.js`; `name` is the answer to the
prompt (`none` when it is cancelled) and `today` the local date. -/
def createNewMeal (env : Env) (today : String) (name : Option String) (s : AppState) :
    AppState × List Effect :=
  match name with
  | none => (s, [])
  | some n =>
    if n = "" then (s, [])
    else
      let m := Meal.mk (env.uid s.uidCalls) (jsTrim n) (some today) (some "18:30") (some [])
      let s1 := { s with uidCalls := s.uidCalls + 1, meals := m :: s.meals }
      let s2 := upsertMeal m s1
      setMealById env m.id s2

/-- The stages of a copied dish: each gets a new identifier. -/
def copyStages (env : Env) : List Stage → Nat → List Stage × Nat
  | [], k => ([], k)
  | st :: rest, k =>
    let r := copyStages env rest (k + 1)
    ({ st with id := env.uid k } :: r.1, r.2)

/-- The dishes of a copied meal: each dish gets a new identifier, then its
stages do. -/
def copyDishes (env : Env) : List Dish → Nat → List Dish × Nat
  | [], k => ([], k)
  | d :: rest, k =>
    let rs := copyStages env (d.stages.getD []) (k + 1)
    let r := copyDishes env rest rs.2
    ({ d with id := env.uid k, stages := some rs.1 } :: r.1, r.2)

/-- The function `copyMeal()` of `app.js`; `name` is the answer to the prompt. -/
def copyMeal (env : Env) (name : Option String) (s : AppState) : AppState × List Effect :=
  match name with
  | none => (s, [])
  | some n =>
    if n = "" then (s, [])
    else
      let r := copyDishes env (s.meal.dishes.getD []) (s.uidCalls + 1)
      let clone := { s.meal with id := env.uid s.uidCalls, name := (jsTrim n), dishes := some r.1 }
      let s1 := { s with uidCalls := r.2, meals := clone :: s.meals }
      let s2 := upsertMeal clone s1
      setMealById env clone.id s2

/-- A stage of an imported document before normalization.  The text fields are
strings when they are present; the flags and the duration are any value, with
`undefined` for a missing one. -/
structure RawStage where
  name : Option String
  durationMin : JsVal
  alertStart : JsVal
  alertEnd : JsVal
  notes : Option String
  deriving DecidableEq, Repr

/-- A dish of an imported document before normalization. -/
structure RawDish where
  name : Option String
  stages : Option (List RawStage)
  deriving DecidableEq, Repr

/-- An imported document that is an object. -/
structure RawMeal where
  name : Option String
  serveDate : Option String
  serveTime : Option String
  dishes : Option (List RawDish)
  deriving DecidableEq, Repr

/-- The text given to the import dialog, after `JSON.parse`: a text that does not
parse, a value that is `null` or not an object, or an object. -/
inductive JsonInput where
  | invalid
  | notObject
  | object (raw : RawMeal)
  deriving DecidableEq, Repr

/-- The normalization of one stage in `importMealJSON`. -/
def importStage (env : Env) (k : Nat) (st : RawStage) : Stage :=
  Stage.mk (env.uid k) (orDefault st.name "Stage")
    (.num (clampInt (nullish st.durationMin (.num 10)) 0 2000))
    (decide (st.alertStart ≠ .bool false)) (decide (st.alertEnd ≠ .bool false))
    (orDefault st.notes "")

/-- The normalization of the stages of a dish in `importMealJSON`. -/
def importStages (env : Env) : List RawStage → Nat → List Stage × Nat
  | [], k => ([], k)
  | st :: rest, k =>
    let r := importStages env rest (k + 1)
    (importStage env k st :: r.1, r.2)

/-- The normalization of the dishes in `importMealJSON`: the identifier of a dish
is drawn before those of its stages. -/
def importDishes (env : Env) : List RawDish → Nat → List Dish × Nat
  | [], k => ([], k)
  | d :: rest, k =>
    let rs := importStages env (d.stages.getD []) (k + 1)
    let r := importDishes env rest rs.2
    (Dish.mk (env.uid k) (orDefault d.name "Dish") (some rs.1) :: r.1, r.2)

/-- The handler of the import button set by `importMealJSON()` of `app.js`, on
the parsed text of the dialog; `today` is the local date. -/
def importMealJSON (env : Env) (today : String) (input : JsonInput) (s : AppState) :
    AppState × List Effect :=
  match input with
  | .invalid => (s, [Effect.toast "Invalid JSON" "That didn't parse as valid JSON."])
  | .notObject =>
    (s, [Effect.toast "Not a meal" "JSON must look like a meal with at least a name."])
  | .object raw =>
    if orDefault raw.name "" = "" then
      (s, [Effect.toast "Not a meal" "JSON must look like a meal with at least a name."])
    else
      let r := importDishes env (raw.dishes.getD []) (s.uidCalls + 1)
      let obj := Meal.mk (env.uid s.uidCalls) (orDefault raw.name "")
        (some (orDefault raw.serveDate today)) (some (orDefault raw.serveTime "18:30"))
        (some r.1)
      let s1 := { s with uidCalls := r.2, meals := obj :: s.meals }
      let s2 := upsertMeal obj s1
      let r3 := setMealById env obj.id s2
      (r3.1, r3.2 ++ [Effect.toast "Imported" ("Imported \"" ++ obj.name ++ "\".")])

/-- The function `addDish()` of `app.js`; `name` is the answer to the prompt. -/
def addDish (env : Env) (name : Option String) (s : AppState) : AppState :=
  match name with
  | none => s
  | some n =>
    if n = "" then s
    else
      let dishes := s.meal.dishes.getD [] ++ [Dish.mk (env.uid s.uidCalls) (jsTrim n) (some [])]
      upsertMeal { s.meal with dishes := some dishes } { s with uidCalls := s.uidCalls + 1 }

/-- The function `deleteDish(dishId)` of `app.js`; `confirmed` is the answer to
the confirmation dialog. -/
def deleteDish (dishId : String) (confirmed : Bool) (s : AppState) : AppState :=
  if confirmed then
    let dishes := (s.meal.dishes.getD []).filter (fun d => d.id != dishId)
    upsertMeal { s.meal with dishes := some dishes } s
  else s

/-- The function `addStage(dishId)` of `app.js`. -/
def addStage (env : Env) (dishId : String) (s : AppState) : AppState :=
  match (s.meal.dishes.getD []).find? (fun d => d.id == dishId) with
  | none => s
  | some _ =>
    let stage := Stage.mk (env.uid s.uidCalls) "New stage" (.num 10) true true ""
    let dishes := modifyFirst (fun d => d.id == dishId)
      (fun d => { d with stages := some (d.stages.getD [] ++ [stage]) }) (s.meal.dishes.getD [])
    upsertMeal { s.meal with dishes := some dishes } { s with uidCalls := s.uidCalls + 1 }

/-- The function `deleteStage(dishId, stageId)` of `app.js`. -/
def deleteStage (dishId stageId : String) (s : AppState) : AppState :=
  match (s.meal.dishes.getD []).find? (fun d => d.id == dishId) with
  | none => s
  | some _ =>
    let dishes := modifyFirst (fun d => d.id == dishId)
      (fun d => { d with stages := some ((d.stages.getD []).filter (fun st => st.id != stageId)) })
      (s.meal.dishes.getD [])
    upsertMeal { s.meal with dishes := some dishes } s

/-- The function `moveDish(dishId, dir)` of `app.js`. -/
def moveDish (dishId : String) (dir : Int) (s : AppState) : AppState :=
  match moveInArray (fun d => d.id == dishId) dir (s.meal.dishes.getD []) with
  | none => s
  | some arr => upsertMeal { s.meal with dishes := some arr } s

/-- The function `moveStage(dishId, stageId, dir)` of `app.js`. -/
def moveStage (dishId stageId : String) (dir : Int) (s : AppState) : AppState :=
  match (s.meal.dishes.getD []).find? (fun d => d.id == dishId) with
  | none => s
  | some dish =>
    match moveInArray (fun st => st.id == stageId) dir (dish.stages.getD []) with
    | none => s
    | some arr =>
      let dishes := modifyFirst (fun d => d.id == dishId) (fun d => { d with stages := some arr })
        (s.meal.dishes.getD [])
      upsertMeal { s.meal with dishes := some dishes } s

/-- The function `updateDishName(dishId, value)` of `app.js`. -/
def updateDishName (dishId value : String) (s : AppState) : AppState :=
  match (s.meal.dishes.getD []).find? (fun d => d.id == dishId) with
  | none => s
  | some _ =>
    let dishes := modifyFirst (fun d => d.id == dishId) (fun d => { d with name := value })
      (s.meal.dishes.getD [])
    upsertMeal { s.meal with dishes := some dishes } s

/-- The assignment to a field of a stage in `updateStageField`.  The branch
`stage[field] = value` writes a text field of the stage when the value is a
string; another property name, or a value of another kind, does not touch the
fields of the typed stage. -/
def setStageField (field : String) (value : JsVal) (stage : Stage) : Stage :=
  if field = "durationMin" then { stage with durationMin := .num (clampInt value 0 2000) }
  else if field = "alertStart" then { stage with alertStart := truthy value }
  else if field = "alertEnd" then { stage with alertEnd := truthy value }
  else
    match value with
    | .str v =>
      if field = "name" then { stage with name := v }
      else if field = "notes" then { stage with notes := v }
      else if field = "id" then { stage with id := v }
      else stage
    | _ => stage

/-- The function `updateStageField(dishId, stageId, field, value)` of `app.js`. -/
def updateStageField (dishId stageId field : String) (value : JsVal) (s : AppState) : AppState :=
  match (s.meal.dishes.getD []).find? (fun d => d.id == dishId) with
  | none => s
  | some dish =>
    match (dish.stages.getD []).find? (fun st => st.id == stageId) with
    | none => s
    | some _ =>
      let dishes := modifyFirst (fun d => d.id == dishId)
        (fun d => { d with stages := some (modifyFirst (fun st => st.id == stageId)
          (setStageField field value) (d.stages.getD [])) })
        (s.meal.dishes.getD [])
      upsertMeal { s.meal with dishes := some dishes } s

/-- The duration of a stage is an integer from `0` to `2000`. -/
def stageOk (stage : Stage) : Bool :=
  match stage.durationMin with
  | .num n => decide (0 ≤ n ∧ n ≤ 2000)
  | _ => false

/-- Every stage of every dish of the meal has an integer duration from `0` to
`2000`. -/
def durationsOk (meal : Meal) : Bool :=
  (meal.dishes.getD []).all (fun d => (d.stages.getD []).all stageOk)

/-! ## Comparing event sequences -/

/-- An event without its identifier. -/
def eraseId (e : Event) : Event :=
  { e with id := "" }

/-- The list `zs` is an interleaving of `xs` and `ys`: its elements are those of
`xs`, in the order of `xs`, and those of `ys`, in the order of `ys`. -/
inductive Interleave {α : Type} : List α → List α → List α → Prop where
  | nil : Interleave [] [] []
  | left (a : α) {xs ys zs : List α} : Interleave xs ys zs → Interleave (a :: xs) ys (a :: zs)
  | right (a : α) {xs ys zs : List α} : Interleave xs ys zs → Interleave xs (a :: ys) (a :: zs)

/-- The number of calls of `showToast` in a list of effects. -/
def toastCount (effects : List Effect) : Nat :=
  (effects.filter (fun e => match e with
    | Effect.toast _ _ => true
    | _ => false)).length

/-! ## Example data -/

/-- An environment with local time equal to UTC, whose `uid()` returns `u0`,
`u1`, and so on. -/
def exampleEnv : Env :=
  Env.mk 0 (fun n => "u" ++ toString n)

/-- The stage "Temper" of 45 minutes with both alerts set. -/
def temperStage : Stage :=
  Stage.mk "s1" "Temper" (.num 45) true true ""

/-- The stage "Roast" of 40 minutes with both alerts set. -/
def roastStage : Stage :=
  Stage.mk "s2" "Roast" (.num 40) true true ""

/-- The dish "Roast" with the stages "Temper" and "Roast". -/
def roastDish : Dish :=
  Dish.mk "d1" "Roast" (some [temperStage, roastStage])

/-- The meal of the roast scenario: one dish "Roast", served at 18:30 on
2024-06-01. -/
def roastMeal : Meal :=
  Meal.mk "m1" "Dinner" (some "2024-06-01") (some "18:30") (some [roastDish])

/-- A dish "Potatoes" with the single stage "Parboil" of 15 minutes. -/
def potatoDish : Dish :=
  Dish.mk "d2" "Potatoes" (some [Stage.mk "s3" "Parboil" (.num 15) true true ""])

/-- A meal with the dish "Potatoes" alone, served like the roast meal. -/
def potatoMeal : Meal :=
  Meal.mk "m3" "Potatoes only" (some "2024-06-01") (some "18:30") (some [potatoDish])

/-- A meal with the dishes "Potatoes" and "Roast", served like the roast meal. -/
def twoDishMeal : Meal :=
  Meal.mk "m4" "Sunday lunch" (some "2024-06-01") (some "18:30") (some [potatoDish, roastDish])

/-- A meal with one dish of one stage of 30 minutes with both alerts set, served
at 18:30 on 2024-06-01: its events are E1, the start at 18:00, and E2, the end
at 18:30. -/
def soupMeal : Meal :=
  Meal.mk "m2" "Supper" (some "2024-06-01") (some "18:30")
    (some [Dish.mk "d3" "Soup" (some [Stage.mk "s4" "Simmer" (.num 30) true true ""])])

/-- The page with the soup meal active, no session and no timers. -/
def idleState : AppState :=
  AppState.mk [soupMeal] soupMeal none [] false false true 0 (some "m2")

/-- The state after `scheduleSession()` at 17:59 from `idleState`. -/
def armedState : AppState :=
  (scheduleSession exampleEnv 1717264740000 idleState).1

/-- The state after the timer of E1 has expired in `armedState`. -/
def firedState : AppState :=
  match timerExpires exampleEnv 0 armedState with
  | some r => r.1
  | none => armedState

/-- The state after a reload of the page in `firedState`: the stored session is
kept, the variables of the page start afresh. -/
def restartedState : AppState :=
  { firedState with timers := [], tickInterval := false, startBtnDisabled := false,
                    stopBtnDisabled := true }

/-- The event E1 of the soup meal as derived in `armedState`: the start of the
stage at 18:00. -/
def soupStart : Event :=
  Event.mk "u0" 1717264800000 EventType.start "Soup" "Simmer" "" 30

/-- The event E2 of the soup meal as derived in `armedState`: the end of the
stage at 18:30. -/
def soupEnd : Event :=
  Event.mk "u1" 1717266600000 EventType.end_ "Soup" "Simmer" "" 30

/-- The page with the soup meal active and its serve time cleared. -/
def unsetState : AppState :=
  { idleState with meal := { soupMeal with serveTime := some "" } }

/-- An imported document with one dish, without a name, of one stage with no
field at all. -/
def bareDocument : RawMeal :=
  RawMeal.mk (some "Picnic") none none
    (some [RawDish.mk none (some [RawStage.mk none .undefined .undefined .undefined none])])

/-- A dish "Stew" of three stages. -/
def stewDish : Dish :=
  Dish.mk "d5" "Stew"
    (some [Stage.mk "a" "Chop" (.num 10) true true "",
      Stage.mk "b" "Brown" (.num 15) true true "",
      Stage.mk "c" "Simmer" (.num 90) true true ""])

/-- A dish "Rice" of one stage. -/
def riceDish : Dish :=
  Dish.mk "d6" "Rice" (some [Stage.mk "r" "Boil" (.num 12) true true ""])

/-- A meal with the dishes "Stew" and "Rice". -/
def editMeal : Meal :=
  Meal.mk "m5" "Stew" (some "2024-06-01") (some "18:30") (some [stewDish, riceDish])

/-- The page with `editMeal` active and in the catalog, after the soup meal. -/
def editState : AppState :=
  AppState.mk [soupMeal, editMeal] editMeal none [] false false true 0 (some "m5")

/-- An imported document with one dish "Grill" of one stage "Sear" of `9999`
minutes, with the start alert off, no end flag, and the notes "hot". -/
def seasonedDocument : RawMeal :=
  RawMeal.mk (some "Barbecue") none none
    (some [RawDish.mk (some "Grill")
      (some [RawStage.mk (some "Sear") (.num 9999) (.bool false) .undefined (some "hot")])])

/-! ## Properties of the sort order -/

theorem eventLE_iff (a b : Event) :
    eventLE a b ↔
      a.when < b.when ∨
        (a.when = b.when ∧ ¬(a.type = EventType.start ∧ b.type = EventType.end_)) := by
  unfold eventLE compareEvents
  by_cases h : a.when - b.when ≠ 0
  · rw [if_pos h]
    constructor
    · intro h1
      left
      omega
    · rintro (h1 | ⟨h1, _⟩)
      · omega
      · omega
  · rw [if_neg h]
    have heq : a.when = b.when := by omega
    cases ha : a.type <;> cases hb : b.type <;> simp [localeCompare, heq]

theorem eventLE_total (a b : Event) : eventLE a b ∨ eventLE b a := by
  rw [eventLE_iff, eventLE_iff]
  rcases lt_trichotomy a.when b.when with h | h | h
  · exact Or.inl (Or.inl h)
  · cases ha : a.type <;> cases hb : b.type <;> simp [h]
  · exact Or.inr (Or.inl h)

theorem eventLE_trans (a b c : Event) (hab : eventLE a b) (hbc : eventLE b c) : eventLE a c := by
  rw [eventLE_iff] at *
  rcases hab with h1 | ⟨h1, h1t⟩
  · rcases hbc with h2 | ⟨h2, _⟩
    · exact Or.inl (by omega)
    · exact Or.inl (by omega)
  · rcases hbc with h2 | ⟨h2, h2t⟩
    · exact Or.inl (by omega)
    · refine Or.inr ⟨by omega, ?_⟩
      rintro ⟨hs, he⟩
      cases hb : b.type
      · exact h2t ⟨hb, he⟩
      · exact h1t ⟨hs, hb⟩

instance : IsTotal Event eventLE := ⟨eventLE_total⟩

instance : IsTrans Event eventLE := ⟨eventLE_trans⟩

theorem sortEvents_sorted (events : List Event) : (sortEvents events).Sorted eventLE :=
  List.sorted_insertionSort eventLE events

theorem mem_sortEvents {e : Event} {events : List Event} :
    e ∈ sortEvents events ↔ e ∈ events :=
  List.mem_insertionSort eventLE

/-! ## The walk over the stages of a dish -/

theorem totalMin_foldl (stages : List Stage) (init : Int) :
    stages.foldl (fun sum s => sum + clampInt (nullish s.durationMin (.num 0)) 0 2000) init =
      init + (stages.map stageMinutes).sum := by
  induction stages generalizing init with
  | nil => simp
  | cons s rest ih =>
    simp only [List.foldl_cons, List.map_cons, List.sum_cons]
    rw [ih]
    simp only [stageMinutes]
    omega

theorem totalMin_eq_sum (stages : List Stage) :
    totalMin stages = (stages.map stageMinutes).sum := by
  unfold totalMin
  rw [totalMin_foldl]
  simp

theorem walkStages_cons (env : Env) (name : String) (s : Stage) (rest : List Stage) (c : Int)
    (k : Nat) :
    walkStages env name (s :: rest) c k =
      ((pushStage env name c s k).1 ++
          (walkStages env name rest (c + stageMinutes s * 60000) (pushStage env name c s k).2).1,
        (walkStages env name rest (c + stageMinutes s * 60000) (pushStage env name c s k).2).2) :=
  rfl

theorem walkStages_append (env : Env) (name : String) (xs ys : List Stage) (c : Int) (k : Nat) :
    walkStages env name (xs ++ ys) c k =
      ((walkStages env name xs c k).1 ++
          (walkStages env name ys (c + (xs.map stageMinutes).sum * 60000)
            (walkStages env name xs c k).2).1,
        (walkStages env name ys (c + (xs.map stageMinutes).sum * 60000)
            (walkStages env name xs c k).2).2) := by
  induction xs generalizing c k with
  | nil => simp [walkStages]
  | cons s rest ih =>
    rw [List.cons_append, walkStages_cons, walkStages_cons, ih]
    simp only [List.map_cons, List.sum_cons, List.append_assoc]
    have hc : c + stageMinutes s * 60000 + (rest.map stageMinutes).sum * 60000 =
        c + (stageMinutes s + (rest.map stageMinutes).sum) * 60000 := by ring
    rw [hc]

theorem mem_walkDishes (env : Env) (T : Int) (dish : Dish) (dishes : List Dish) (k : Nat)
    (hd : dish ∈ dishes) :
    ∃ k1, ∀ e ∈ (dishEvents env T dish k1).1, e ∈ (walkDishes env T dishes k).1 := by
  induction dishes generalizing k with
  | nil => simp at hd
  | cons d rest ih =>
    rcases List.mem_cons.mp hd with h | h
    · subst h
      exact ⟨k, fun e he => by simp only [walkDishes]; exact List.mem_append_left _ he⟩
    · obtain ⟨k1, hk1⟩ := ih (dishEvents env T d k).2 h
      exact ⟨k1, fun e he => by
        simp only [walkDishes]; exact List.mem_append_right _ (hk1 e he)⟩

theorem mem_computeEvents_of_dish (env : Env) (meal : Meal) (k : Nat) (T : Int)
    (hT : parseServeDateTime env meal.serveDate meal.serveTime = some T)
    (dish : Dish) (hd : dish ∈ meal.dishes.getD []) :
    ∃ k1, ∀ e ∈ (dishEvents env T dish k1).1, e ∈ (computeEvents env meal k).1 := by
  obtain ⟨k1, hk1⟩ := mem_walkDishes env T dish (meal.dishes.getD []) k hd
  refine ⟨k1, fun e he => ?_⟩
  simp only [computeEvents, hT]
  exact mem_sortEvents.mpr (hk1 e he)

theorem pushStage_start_mem (env : Env) (name : String) (c : Int) (s : Stage) (k : Nat)
    (ha : s.alertStart = true) :
    Event.mk (env.uid k) c EventType.start name s.name (orEmpty s.notes) (stageMinutes s) ∈
      (pushStage env name c s k).1 := by
  simp [pushStage, ha, stageMinutes]

theorem pushStage_end_mem (env : Env) (name : String) (c : Int) (s : Stage) (k : Nat)
    (ha : s.alertEnd = true) :
    ∃ id, Event.mk id (c + stageMinutes s * 60000) EventType.end_ name s.name (orEmpty s.notes)
      (stageMinutes s) ∈ (pushStage env name c s k).1 := by
  refine ⟨env.uid (if s.alertStart then k + 1 else k), ?_⟩
  cases hs : s.alertStart <;> simp [pushStage, ha, hs, stageMinutes]

/-- The first stage of a dish, when its start alert is set, puts its start event
among the events of the dish, at the serve instant minus the total of the
clamped durations. -/
theorem dishEvents_first (env : Env) (T : Int) (dish : Dish) (k : Nat) (first : Stage)
    (hf : (dish.stages.getD []).head? = some first) (ha : first.alertStart = true) :
    Event.mk (env.uid k)
        (T - 60000 * ((dish.stages.getD []).map stageMinutes).sum) EventType.start dish.name
        first.name (orEmpty first.notes) (stageMinutes first) ∈ (dishEvents env T dish k).1 := by
  simp only [dishEvents, totalMin_eq_sum]
  cases hs : dish.stages.getD [] with
  | nil => rw [hs] at hf; simp at hf
  | cons s rest =>
    rw [hs] at hf
    simp only [List.head?_cons, Option.some.injEq] at hf
    subst hf
    rw [walkStages_cons]
    apply List.mem_append_left
    have hw : T - ((s :: rest).map stageMinutes).sum * 60000 =
        T - 60000 * ((s :: rest).map stageMinutes).sum := by ring
    rw [hw]
    exact pushStage_start_mem env dish.name _ s k ha

/-- The last stage of a dish, when its end alert is set, puts its end event at
the serve instant. -/
theorem dishEvents_last (env : Env) (T : Int) (dish : Dish) (k : Nat) (last : Stage)
    (hl : (dish.stages.getD []).getLast? = some last) (ha : last.alertEnd = true) :
    ∃ id, Event.mk id T EventType.end_ dish.name last.name (orEmpty last.notes)
        (stageMinutes last) ∈ (dishEvents env T dish k).1 := by
  simp only [dishEvents, totalMin_eq_sum]
  obtain ⟨init, hinit⟩ : ∃ init, dish.stages.getD [] = init ++ [last] := by
    rcases List.eq_nil_or_concat (dish.stages.getD []) with h | ⟨init, b, h⟩
    · rw [h] at hl; simp at hl
    · rw [h] at hl
      simp at hl
      subst hl
      exact ⟨init, by simpa using h⟩
  rw [hinit, walkStages_append, walkStages_cons]
  obtain ⟨id, hid⟩ := pushStage_end_mem env dish.name
    (T - ((init ++ [last]).map stageMinutes).sum * 60000 + (init.map stageMinutes).sum * 60000)
    last (walkStages env dish.name init
      (T - ((init ++ [last]).map stageMinutes).sum * 60000) k).2 ha
  have hw : T - ((init ++ [last]).map stageMinutes).sum * 60000 +
      (init.map stageMinutes).sum * 60000 + stageMinutes last * 60000 = T := by
    simp only [List.map_append, List.sum_append, List.map_cons, List.map_nil, List.sum_cons,
      List.sum_nil]
    ring
  rw [hw] at hid
  exact ⟨id, List.mem_append_right _ (List.mem_append_left _ hid)⟩

/-- Claim C1 (anchoring). For every meal whose serve date and time resolve to
the instant `T` and every dish of the meal: when the last stage of the dish has
its end alert set, `computeEvents` returns the end event of that stage at
exactly `T`; when the first stage has its start alert set, `computeEvents`
returns the start event of that stage at exactly `T` minus `60000` ms times the
sum of the clamped durations `clampInt(durationMin ?? 0, 0, 2000)` of the
stages of the dish. -/
theorem computeEvents_anchoring (env : Env) (meal : Meal) (k : Nat) (T : Int)
    (hT : parseServeDateTime env meal.serveDate meal.serveTime = some T)
    (dish : Dish) (hd : dish ∈ meal.dishes.getD []) :
    (∀ last, (dish.stages.getD []).getLast? = some last → last.alertEnd = true →
        ∃ id, Event.mk id T EventType.end_ dish.name last.name (orEmpty last.notes)
          (clampInt (nullish last.durationMin (.num 0)) 0 2000) ∈ (computeEvents env meal k).1) ∧
    (∀ first, (dish.stages.getD []).head? = some first → first.alertStart = true →
        ∃ id, Event.mk id
          (T - 60000 * ((dish.stages.getD []).map
            (fun s => clampInt (nullish s.durationMin (.num 0)) 0 2000)).sum)
          EventType.start dish.name first.name (orEmpty first.notes)
          (clampInt (nullish first.durationMin (.num 0)) 0 2000) ∈ (computeEvents env meal k).1) := by
  obtain ⟨k1, hk1⟩ := mem_computeEvents_of_dish env meal k T hT dish hd
  constructor
  · intro last hl ha
    obtain ⟨id, hid⟩ := dishEvents_last env T dish k1 last hl ha
    exact ⟨id, hk1 _ hid⟩
  · intro first hf ha
    exact ⟨env.uid k1, hk1 _ (dishEvents_first env T dish k1 first hf ha)⟩

/-- Claim C3 (ordering). The sequence returned by `computeEvents` is sorted: of
two events at positions `i < j`, either the first is strictly earlier, or they
have the same `when` and it is not the case that the first is a start and the
second an end. -/
theorem computeEvents_ordered (env : Env) (meal : Meal) (k : Nat) :
    (computeEvents env meal k).1.Pairwise (fun a b =>
      a.when < b.when ∨
        (a.when = b.when ∧ ¬(a.type = EventType.start ∧ b.type = EventType.end_))) := by
  have h : (computeEvents env meal k).1.Sorted eventLE := by
    unfold computeEvents
    cases parseServeDateTime env meal.serveDate meal.serveTime with
    | none => exact List.sorted_nil
    | some T => exact sortEvents_sorted _
  exact List.Pairwise.imp (fun {a b} hab => (eventLE_iff a b).mp hab) h

/-- Witness of claim C1 on the roast meal: the end event of the stage "Roast" is
at the serve instant and the start event of the stage "Temper" is 85 minutes
earlier. -/
theorem computeEvents_anchoring_witness :
    (∃ id, Event.mk id 1717266600000 EventType.end_ "Roast" "Roast" "" 40 ∈
        (computeEvents exampleEnv roastMeal 0).1) ∧
    (∃ id, Event.mk id (1717266600000 - 60000 * 85) EventType.start "Roast" "Temper" "" 45 ∈
        (computeEvents exampleEnv roastMeal 0).1) :=
  have h := computeEvents_anchoring exampleEnv roastMeal 0 1717266600000 (by decide) roastDish
    (by decide)
  ⟨h.1 roastStage (by decide) (by decide), h.2 temperStage (by decide) (by decide)⟩

theorem parseServeDateTime_half_past_six (env : Env) (d : Option String) (T : Int)
    (hT : parseServeDateTime env d (some "18:30") = some T) :
    ∃ day : Int, T = day * 86400000 + 66600000 - env.tzOffsetMin * 60000 := by
  have h0 : field ((splitChars ':' "18:30".toList).map toNumber) 0 =
      some (JsNum.mk false 18 false) := by decide
  have h1 : field ((splitChars ':' "18:30".toList).map toNumber) 1 =
      some (JsNum.mk false 30 false) := by decide
  have t0 : truncNum (JsNum.mk false 18 false) = 18 := by decide
  have t1 : truncNum (JsNum.mk false 30 false) = 30 := by decide
  unfold parseServeDateTime at hT
  cases d with
  | none => simp at hT
  | some ds =>
    simp only [h0, h1] at hT
    split at hT
    · simp at hT
    · split at hT
      · rename_i Y M D h m hY hM hD hh hm
        simp only [Option.some.injEq] at hh hm
        subst hh hm
        simp only [makeLocalDate, timeClip, Option.ite_none_right_eq_some,
          Option.some.injEq, t0, t1] at hT
        obtain ⟨_, hT⟩ := hT
        generalize daysFromCivil _ _ _ = dd at hT
        exact ⟨dd + truncNum D - 1, by rw [← hT]; ring⟩
      · simp at hT

theorem toTimeLabel_of_minutes (env : Env) (day : Int) (mins h m : Int)
    (hh : 0 ≤ h ∧ h < 24) (hm : 0 ≤ m ∧ m < 60) (hmin : mins = h * 60 + m) :
    toTimeLabel env (day * 86400000 + mins * 60000 - env.tzOffsetMin * 60000) =
      pad2 h ++ ":" ++ pad2 m := by
  unfold toTimeLabel
  have e1 : (day * 86400000 + mins * 60000 - env.tzOffsetMin * 60000 +
      env.tzOffsetMin * 60000) / 3600000 % 24 = h := by omega
  have e2 : (day * 86400000 + mins * 60000 - env.tzOffsetMin * 60000 +
      env.tzOffsetMin * 60000) / 60000 % 60 = m := by omega
  simp only [e1, e2]


/-- Claim C2, as amended. For a meal with the single dish "Roast" whose stages
are Temper (45 minutes) and Roast (40 minutes), both with both alerts set, and
the serve time 18:30 on a date that resolves, `computeEvents` returns four
events: start of Temper at 17:05, end of Temper and start of Roast at 17:50,
end of Roast at 18:30, in local wall-clock time. -/
theorem computeEvents_roast (env : Env) (k : Nat) (mealId mealName dishId id1 id2 n1 n2 : String)
    (d : Option String) (T : Int)
    (hT : parseServeDateTime env d (some "18:30") = some T) :
    (computeEvents env
        (Meal.mk mealId mealName d (some "18:30")
          (some [Dish.mk dishId "Roast"
            (some [Stage.mk id1 "Temper" (.num 45) true true n1,
              Stage.mk id2 "Roast" (.num 40) true true n2])])) k).1 =
      [Event.mk (env.uid k) (T - 85 * 60000) EventType.start "Roast" "Temper" (orEmpty n1) 45,
        Event.mk (env.uid (k + 1)) (T - 40 * 60000) EventType.end_ "Roast" "Temper" (orEmpty n1) 45,
        Event.mk (env.uid (k + 2)) (T - 40 * 60000) EventType.start "Roast" "Roast" (orEmpty n2) 40,
        Event.mk (env.uid (k + 3)) T EventType.end_ "Roast" "Roast" (orEmpty n2) 40] ∧
    toTimeLabel env (T - 85 * 60000) = "17:05" ∧
    toTimeLabel env (T - 40 * 60000) = "17:50" ∧
    toTimeLabel env T = "18:30" := by
  have c45 : clampInt (nullish (.num 45) (.num 0)) 0 2000 = 45 := by decide
  have c40 : clampInt (nullish (.num 40) (.num 0)) 0 2000 = 40 := by decide
  refine ⟨?_, ?_⟩
  · simp only [computeEvents, hT, Option.getD_some, walkDishes, dishEvents, walkStages, pushStage,
      totalMin, List.foldl_cons, List.foldl_nil, if_true, List.append_nil, c45, c40,
      List.cons_append, List.nil_append]
    have hs : List.Sorted eventLE
        [Event.mk (env.uid k) (T - (0 + 45 + 40) * 60000) EventType.start "Roast" "Temper"
            (orEmpty n1) 45,
          Event.mk (env.uid (k + 1)) (T - (0 + 45 + 40) * 60000 + 45 * 60000) EventType.end_
            "Roast" "Temper" (orEmpty n1) 45,
          Event.mk (env.uid (k + 1 + 1)) (T - (0 + 45 + 40) * 60000 + 45 * 60000)
            EventType.start "Roast" "Roast" (orEmpty n2) 40,
          Event.mk (env.uid (k + 1 + 1 + 1)) (T - (0 + 45 + 40) * 60000 + 45 * 60000 + 40 * 60000)
            EventType.end_ "Roast" "Roast" (orEmpty n2) 40] := by
      simp only [List.Sorted, List.pairwise_cons, List.mem_cons, List.mem_singleton,
        forall_eq_or_imp, forall_eq, eventLE_iff, List.not_mem_nil, List.Pairwise.nil]
      simp
      omega
    rw [sortEvents, hs.insertionSort_eq]
    simp only [List.cons.injEq, Event.mk.injEq, true_and, and_true]
    omega
  · obtain ⟨day, hday⟩ := parseServeDateTime_half_past_six env d T hT
    subst hday
    refine ⟨?_, ?_, ?_⟩
    · have h := toTimeLabel_of_minutes env day 1025 17 5 (by omega) (by omega) (by omega)
      have e : day * 86400000 + 66600000 - env.tzOffsetMin * 60000 - 85 * 60000 =
          day * 86400000 + 1025 * 60000 - env.tzOffsetMin * 60000 := by ring
      rw [e, h]
      decide
    · have h := toTimeLabel_of_minutes env day 1070 17 50 (by omega) (by omega) (by omega)
      have e : day * 86400000 + 66600000 - env.tzOffsetMin * 60000 - 40 * 60000 =
          day * 86400000 + 1070 * 60000 - env.tzOffsetMin * 60000 := by ring
      rw [e, h]
      decide
    · have h := toTimeLabel_of_minutes env day 1110 18 30 (by omega) (by omega) (by omega)
      have e : day * 86400000 + 66600000 - env.tzOffsetMin * 60000 =
          day * 86400000 + 1110 * 60000 - env.tzOffsetMin * 60000 := by ring
      rw [e, h]
      decide

/-- Witness of claim C2 as amended, on the roast meal served on 2024-06-01 where
local time is UTC. -/
theorem computeEvents_roast_witness :
    parseServeDateTime exampleEnv (some "2024-06-01") (some "18:30") = some 1717266600000 ∧
    ((computeEvents exampleEnv
        (Meal.mk "m1" "Dinner" (some "2024-06-01") (some "18:30")
          (some [Dish.mk "d1" "Roast"
            (some [Stage.mk "s1" "Temper" (.num 45) true true "",
              Stage.mk "s2" "Roast" (.num 40) true true ""])])) 0).1 =
      [Event.mk (exampleEnv.uid 0) (1717266600000 - 85 * 60000) EventType.start "Roast" "Temper"
          (orEmpty "") 45,
        Event.mk (exampleEnv.uid (0 + 1)) (1717266600000 - 40 * 60000) EventType.end_ "Roast"
          "Temper" (orEmpty "") 45,
        Event.mk (exampleEnv.uid (0 + 2)) (1717266600000 - 40 * 60000) EventType.start "Roast"
          "Roast" (orEmpty "") 40,
        Event.mk (exampleEnv.uid (0 + 3)) 1717266600000 EventType.end_ "Roast" "Roast"
          (orEmpty "") 40] ∧
    toTimeLabel exampleEnv (1717266600000 - 85 * 60000) = "17:05" ∧
    toTimeLabel exampleEnv (1717266600000 - 40 * 60000) = "17:50" ∧
    toTimeLabel exampleEnv 1717266600000 = "18:30") :=
  ⟨by decide, computeEvents_roast exampleEnv 0 "m1" "Dinner" "d1" "s1" "s2" "" ""
    (some "2024-06-01") 1717266600000 (by decide)⟩

/-- Counterexample to claim C2 as stated: on the roast meal served at 18:30 the
events are at 17:05, 17:50, 17:50 and 18:30, not at 16:25, 17:10, 17:10 and
17:50. -/
theorem computeEvents_roast_counterexample :
    (computeEvents exampleEnv roastMeal 0).1.map
        (fun e => (e.type, e.stage, toTimeLabel exampleEnv e.when)) =
      [(EventType.start, "Temper", "17:05"), (EventType.end_, "Temper", "17:50"),
        (EventType.start, "Roast", "17:50"), (EventType.end_, "Roast", "18:30")] ∧
    (computeEvents exampleEnv roastMeal 0).1.map
        (fun e => (e.type, e.stage, toTimeLabel exampleEnv e.when)) ≠
      [(EventType.start, "Temper", "16:25"), (EventType.end_, "Temper", "17:10"),
        (EventType.start, "Roast", "17:10"), (EventType.end_, "Roast", "17:50")] := by
  decide

/-! ## Interleavings and the stable sort -/

theorem Interleave.nil_left {α : Type} (l : List α) : Interleave [] l l := by
  induction l with
  | nil => exact Interleave.nil
  | cons a l ih => exact Interleave.right a ih

theorem Interleave.append_self {α : Type} (xs ys : List α) : Interleave xs ys (xs ++ ys) := by
  induction xs with
  | nil => exact Interleave.nil_left ys
  | cons a xs ih => exact Interleave.left a ih

theorem Interleave.prepend_right {α : Type} (pre : List α) {xs ys zs : List α}
    (h : Interleave xs ys zs) : Interleave xs (pre ++ ys) (pre ++ zs) := by
  induction pre with
  | nil => exact h
  | cons a pre ih => exact Interleave.right a ih

theorem Interleave.mem_left {α : Type} {xs ys zs : List α} (h : Interleave xs ys zs) {x : α}
    (hx : x ∈ xs) : x ∈ zs := by
  induction h with
  | nil => exact hx
  | left a _ ih =>
    rcases List.mem_cons.mp hx with h1 | h1
    · exact h1 ▸ List.mem_cons_self _ _
    · exact List.mem_cons_of_mem _ (ih h1)
  | right a _ ih => exact List.mem_cons_of_mem _ (ih hx)

theorem Interleave.mem_right {α : Type} {xs ys zs : List α} (h : Interleave xs ys zs) {x : α}
    (hx : x ∈ ys) : x ∈ zs := by
  induction h with
  | nil => exact hx
  | left a _ ih => exact List.mem_cons_of_mem _ (ih hx)
  | right a _ ih =>
    rcases List.mem_cons.mp hx with h1 | h1
    · exact h1 ▸ List.mem_cons_self _ _
    · exact List.mem_cons_of_mem _ (ih h1)

theorem Interleave.eq_of_nil_left {α : Type} {xs ys zs : List α} (h : Interleave xs ys zs)
    (hx : xs = []) : zs = ys := by
  induction h with
  | nil => rfl
  | left a _ _ => cases hx
  | right a _ ih => rw [ih hx]

theorem orderedInsert_eq_cons {α : Type} (r : α → α → Prop) [DecidableRel r] (a : α)
    (l : List α) (h : ∀ x ∈ l, r a x) : l.orderedInsert r a = a :: l := by
  cases l with
  | nil => rfl
  | cons b l => simp [List.orderedInsert, h b (List.mem_cons_self _ _)]

theorem Interleave.orderedInsert_left {α : Type} (r : α → α → Prop) [DecidableRel r]
    [IsTrans α r] (a : α) {xs ys zs : List α} (h : Interleave xs ys zs) (hs : zs.Sorted r) :
    Interleave (xs.orderedInsert r a) ys (zs.orderedInsert r a) := by
  induction h with
  | nil => exact Interleave.left a Interleave.nil
  | @left b xs ys zs h1 ih =>
    by_cases hab : r a b
    · simp only [List.orderedInsert, hab, if_true]
      exact Interleave.left a (Interleave.left b h1)
    · simp only [List.orderedInsert, hab, if_false]
      exact Interleave.left b (ih hs.of_cons)
  | @right b xs ys zs h1 ih =>
    by_cases hab : r a b
    · have hx : ∀ x ∈ xs, r a x := fun x hx =>
        IsTrans.trans a b x hab (List.rel_of_sorted_cons hs x (h1.mem_left hx))
      rw [orderedInsert_eq_cons r a xs hx]
      simp only [List.orderedInsert, hab, if_true]
      exact Interleave.left a (Interleave.right b h1)
    · simp only [List.orderedInsert, hab, if_false]
      exact Interleave.right b (ih hs.of_cons)

theorem Interleave.orderedInsert_right {α : Type} (r : α → α → Prop) [DecidableRel r]
    [IsTrans α r] (a : α) {xs ys zs : List α} (h : Interleave xs ys zs) (hs : zs.Sorted r) :
    Interleave xs (ys.orderedInsert r a) (zs.orderedInsert r a) := by
  induction h with
  | nil => exact Interleave.right a Interleave.nil
  | @left b xs ys zs h1 ih =>
    by_cases hab : r a b
    · have hy : ∀ y ∈ ys, r a y := fun y hy =>
        IsTrans.trans a b y hab (List.rel_of_sorted_cons hs y (h1.mem_right hy))
      rw [orderedInsert_eq_cons r a ys hy]
      simp only [List.orderedInsert, hab, if_true]
      exact Interleave.right a (Interleave.left b h1)
    · simp only [List.orderedInsert, hab, if_false]
      exact Interleave.left b (ih hs.of_cons)
  | @right b xs ys zs h1 ih =>
    by_cases hab : r a b
    · simp only [List.orderedInsert, hab, if_true]
      exact Interleave.right a (Interleave.right b h1)
    · simp only [List.orderedInsert, hab, if_false]
      exact Interleave.right b (ih hs.of_cons)

/-- The stable sort of an interleaving of two lists is an interleaving of their
stable sorts. -/
theorem Interleave.insertionSort {α : Type} (r : α → α → Prop) [DecidableRel r]
    [IsTrans α r] [IsTotal α r] {xs ys zs : List α} (h : Interleave xs ys zs) :
    Interleave (xs.insertionSort r) (ys.insertionSort r) (zs.insertionSort r) := by
  induction h with
  | nil => exact Interleave.nil
  | @left a xs ys zs _ ih =>
    simp only [List.insertionSort]
    exact Interleave.orderedInsert_left r a ih (List.sorted_insertionSort r zs)
  | @right a xs ys zs _ ih =>
    simp only [List.insertionSort]
    exact Interleave.orderedInsert_right r a ih (List.sorted_insertionSort r zs)

/-! ## Events without their identifiers -/

theorem eventLE_eraseId (a b : Event) : eventLE a b ↔ eventLE (eraseId a) (eraseId b) := by
  simp only [eventLE_iff, eraseId]

theorem sortEvents_eraseId (events : List Event) :
    (sortEvents events).map eraseId = sortEvents (events.map eraseId) :=
  List.map_insertionSort eventLE eventLE eraseId events (fun a _ b _ => eventLE_eraseId a b)

theorem pushStage_eraseId (env : Env) (name : String) (c : Int) (s : Stage) (k k1 : Nat) :
    (pushStage env name c s k).1.map eraseId = (pushStage env name c s k1).1.map eraseId := by
  cases h1 : s.alertStart <;> cases h2 : s.alertEnd <;> simp [pushStage, h1, h2, eraseId]

theorem walkStages_eraseId (env : Env) (name : String) (stages : List Stage) (c : Int)
    (k k1 : Nat) :
    (walkStages env name stages c k).1.map eraseId =
      (walkStages env name stages c k1).1.map eraseId := by
  induction stages generalizing c k k1 with
  | nil => rfl
  | cons s rest ih =>
    rw [walkStages_cons, walkStages_cons]
    simp only [List.map_append]
    rw [pushStage_eraseId env name c s k k1,
      ih (c + stageMinutes s * 60000) (pushStage env name c s k).2 (pushStage env name c s k1).2]

theorem dishEvents_eraseId (env : Env) (T : Int) (dish : Dish) (k k1 : Nat) :
    (dishEvents env T dish k).1.map eraseId = (dishEvents env T dish k1).1.map eraseId := by
  simp only [dishEvents]
  exact walkStages_eraseId env dish.name _ _ k k1

theorem walkDishes_eraseId (env : Env) (T : Int) (dishes : List Dish) (k k1 : Nat) :
    (walkDishes env T dishes k).1.map eraseId = (walkDishes env T dishes k1).1.map eraseId := by
  induction dishes generalizing k k1 with
  | nil => rfl
  | cons d rest ih =>
    simp only [walkDishes, List.map_append]
    rw [dishEvents_eraseId env T d k k1, ih (dishEvents env T d k).2 (dishEvents env T d k1).2]

theorem walkDishes_cons (env : Env) (T : Int) (d : Dish) (rest : List Dish) (k : Nat) :
    walkDishes env T (d :: rest) k =
      ((dishEvents env T d k).1 ++ (walkDishes env T rest (dishEvents env T d k).2).1,
        (walkDishes env T rest (dishEvents env T d k).2).2) :=
  rfl

theorem walkDishes_append (env : Env) (T : Int) (xs ys : List Dish) (k : Nat) :
    (walkDishes env T (xs ++ ys) k).1 =
      (walkDishes env T xs k).1 ++ (walkDishes env T ys (walkDishes env T xs k).2).1 := by
  induction xs generalizing k with
  | nil => rfl
  | cons d rest ih =>
    rw [List.cons_append, walkDishes_cons, walkDishes_cons]
    simp only [List.append_assoc]
    rw [ih]

theorem walkDishes_eraseId_append (env : Env) (T : Int) (xs ys : List Dish) (k : Nat) :
    (walkDishes env T (xs ++ ys) k).1.map eraseId =
      (walkDishes env T xs 0).1.map eraseId ++ (walkDishes env T ys 0).1.map eraseId := by
  rw [walkDishes_append, List.map_append, walkDishes_eraseId env T xs k 0,
    walkDishes_eraseId env T ys _ 0]

theorem computeEvents_eraseId (env : Env) (meal : Meal) (k : Nat) (T : Int)
    (hT : parseServeDateTime env meal.serveDate meal.serveTime = some T) :
    (computeEvents env meal k).1.map eraseId =
      sortEvents ((walkDishes env T (meal.dishes.getD []) 0).1.map eraseId) := by
  simp only [computeEvents, hT]
  rw [sortEvents_eraseId, walkDishes_eraseId env T _ k 0]

/-- Claim C4 (parallel dishes). Let `meal` resolve to the serve instant `T` and
have the dishes `pre ++ dish :: post`; let `single` be a meal with the same
serve instant and the dish `dish` alone, and `others` a meal with the same serve
instant and the dishes `pre ++ post`.  Then the events of `meal`, identifiers
apart, are an interleaving of the events of `single` and the events of `others`:
the events that come from `dish` are those of `single`, in the same order,
whatever the other dishes are.  A dish without stages adds no event: the events
of `meal` are then those of `others`.  Moreover the last stage of `dish` is laid
out from `T` minus its clamped duration, so that the layout of the dish ends at
`T`. -/
theorem computeEvents_parallel (env : Env) (meal single others : Meal) (k k1 k2 : Nat) (T : Int)
    (pre post : List Dish) (dish : Dish)
    (hT : parseServeDateTime env meal.serveDate meal.serveTime = some T)
    (hT1 : parseServeDateTime env single.serveDate single.serveTime = some T)
    (hT2 : parseServeDateTime env others.serveDate others.serveTime = some T)
    (hd : meal.dishes.getD [] = pre ++ dish :: post)
    (hd1 : single.dishes.getD [] = [dish])
    (hd2 : others.dishes.getD [] = pre ++ post) :
    Interleave ((computeEvents env single k1).1.map eraseId)
        ((computeEvents env others k2).1.map eraseId)
        ((computeEvents env meal k).1.map eraseId) ∧
    (dish.stages.getD [] = [] →
      (computeEvents env meal k).1.map eraseId = (computeEvents env others k2).1.map eraseId) ∧
    (∀ init last, dish.stages.getD [] = init ++ [last] → ∀ j, ∃ j1,
        (dishEvents env T dish j).1 =
          (walkStages env dish.name init (T - totalMin (init ++ [last]) * 60000) j).1 ++
            (pushStage env dish.name
              (T - clampInt (nullish last.durationMin (.num 0)) 0 2000 * 60000) last j1).1) := by
  have hI : Interleave ((computeEvents env single k1).1.map eraseId)
      ((computeEvents env others k2).1.map eraseId)
      ((computeEvents env meal k).1.map eraseId) := by
    rw [computeEvents_eraseId env meal k T hT, computeEvents_eraseId env single k1 T hT1,
      computeEvents_eraseId env others k2 T hT2, hd, hd1, hd2]
    have e1 : (walkDishes env T (pre ++ dish :: post) 0).1.map eraseId =
        (walkDishes env T pre 0).1.map eraseId ++
          ((walkDishes env T [dish] 0).1.map eraseId ++
            (walkDishes env T post 0).1.map eraseId) := by
      have hsplit : pre ++ dish :: post = pre ++ ([dish] ++ post) := rfl
      rw [hsplit, walkDishes_eraseId_append, walkDishes_eraseId_append]
    rw [e1, walkDishes_eraseId_append]
    exact Interleave.insertionSort eventLE
      (Interleave.prepend_right _ (Interleave.append_self _ _))
  refine ⟨hI, ?_, ?_⟩
  · intro hnone
    have hsingle : (computeEvents env single k1).1.map eraseId = [] := by
      simp [computeEvents, hT1, hd1, walkDishes, dishEvents, hnone, walkStages, sortEvents]
    exact Interleave.eq_of_nil_left hI hsingle
  · intro init last hs j
    refine ⟨(walkStages env dish.name init (T - totalMin (init ++ [last]) * 60000) j).2, ?_⟩
    simp only [dishEvents, hs]
    rw [walkStages_append, walkStages_cons]
    simp only [walkStages, List.append_nil]
    have hc : T - totalMin (init ++ [last]) * 60000 + (init.map stageMinutes).sum * 60000 =
        T - clampInt (nullish last.durationMin (.num 0)) 0 2000 * 60000 := by
      rw [totalMin_eq_sum]
      simp only [List.map_append, List.sum_append, List.map_cons, List.map_nil, List.sum_cons,
        List.sum_nil, stageMinutes]
      ring
    rw [hc]

/-- Witness of claim C4 on the meal with the dishes "Potatoes" and "Roast": its
events are an interleaving of those of the roast meal and those of the potato
meal, and the stage "Roast" is laid out from 40 minutes before the serve
instant. -/
theorem computeEvents_parallel_witness :
    Interleave ((computeEvents exampleEnv roastMeal 0).1.map eraseId)
        ((computeEvents exampleEnv potatoMeal 0).1.map eraseId)
        ((computeEvents exampleEnv twoDishMeal 0).1.map eraseId) ∧
    (∃ j1, (dishEvents exampleEnv 1717266600000 roastDish 0).1 =
        (walkStages exampleEnv roastDish.name [temperStage]
            (1717266600000 - totalMin ([temperStage] ++ [roastStage]) * 60000) 0).1 ++
          (pushStage exampleEnv roastDish.name
            (1717266600000 - clampInt (nullish roastStage.durationMin (.num 0)) 0 2000 * 60000)
            roastStage j1).1) :=
  have h := computeEvents_parallel exampleEnv twoDishMeal roastMeal potatoMeal 0 0 0
    1717266600000 [potatoDish] [] roastDish (by decide) (by decide) (by decide) (by decide)
    (by decide) (by decide)
  ⟨h.1, h.2.2 [temperStage] roastStage (by decide) 0⟩

/-! ## Identifiers of events -/

theorem pushStage_calls (env : Env) (name : String) (c : Int) (s : Stage) (k : Nat) :
    (pushStage env name c s k).2 = k + (pushStage env name c s k).1.length := by
  cases h1 : s.alertStart <;> cases h2 : s.alertEnd <;> simp [pushStage, h1, h2]

theorem walkStages_calls (env : Env) (name : String) (stages : List Stage) (c : Int) (k : Nat) :
    (walkStages env name stages c k).2 = k + (walkStages env name stages c k).1.length := by
  induction stages generalizing c k with
  | nil => simp [walkStages]
  | cons s rest ih =>
    rw [walkStages_cons]
    simp only [List.length_append]
    rw [ih, pushStage_calls]
    omega

theorem walkDishes_calls (env : Env) (T : Int) (dishes : List Dish) (k : Nat) :
    (walkDishes env T dishes k).2 = k + (walkDishes env T dishes k).1.length := by
  induction dishes generalizing k with
  | nil => simp [walkDishes]
  | cons d rest ih =>
    rw [walkDishes_cons]
    simp only [List.length_append]
    rw [ih]
    simp only [dishEvents]
    rw [walkStages_calls]
    omega

/-- Every event returned by `computeEvents` costs one call of `uid()`. -/
theorem computeEvents_calls (env : Env) (meal : Meal) (k : Nat) :
    (computeEvents env meal k).2 = k + (computeEvents env meal k).1.length := by
  unfold computeEvents
  cases parseServeDateTime env meal.serveDate meal.serveTime with
  | none => simp
  | some T =>
    simp only [sortEvents, List.length_insertionSort]
    exact walkDishes_calls env T _ k

/-- Two derivations from the same meal agree on everything but the
identifiers of the events. -/
theorem computeEvents_eraseId_eq (env : Env) (meal : Meal) (k k1 : Nat) :
    (computeEvents env meal k).1.map eraseId = (computeEvents env meal k1).1.map eraseId := by
  cases hT : parseServeDateTime env meal.serveDate meal.serveTime with
  | none => simp [computeEvents, hT]
  | some T => rw [computeEvents_eraseId env meal k T hT, computeEvents_eraseId env meal k1 T hT]

/-- Claim C5 (determinism), evaluated on the roast meal: two calls of
`computeEvents` in a row return the same events up to the identifiers, but the
identifiers of the first call are `u0` to `u3` and those of the second call are
`u4` to `u7`, so the two sequences differ. -/
theorem computeEvents_twice_ids_differ :
    (computeEvents exampleEnv roastMeal 0).1.map (fun e => e.id) = ["u0", "u1", "u2", "u3"] ∧
    (computeEvents exampleEnv roastMeal (computeEvents exampleEnv roastMeal 0).2).1.map
        (fun e => e.id) = ["u4", "u5", "u6", "u7"] ∧
    (computeEvents exampleEnv roastMeal 0).1 ≠
      (computeEvents exampleEnv roastMeal (computeEvents exampleEnv roastMeal 0).2).1 ∧
    (computeEvents exampleEnv roastMeal 0).1.map eraseId =
      (computeEvents exampleEnv roastMeal (computeEvents exampleEnv roastMeal 0).2).1.map
        eraseId := by
  decide

/-! ## The alert dispatcher -/

theorem notify_session (env : Env) (ev : Event) (s : AppState) :
    (notify env ev s).1.session = s.session :=
  rfl

theorem notify_toastCount (env : Env) (ev : Event) (s : AppState) :
    toastCount (notify env ev s).2 = 1 := by
  cases h : ev.type <;> simp [notify, renderTimeline, toastCount, h]

/-- Claim C6 (idempotent dispatch). With a stored session, after `fireEvent(ev)`
the identifier of `ev` is in `firedEventIds`; a second call right after it
changes nothing and has no effect; the two calls together show one toast with
its sound pattern when the identifier was not recorded before, and none when it
was, in which case already the first call changes nothing and has no effect. -/
theorem fireEvent_idempotent (env : Env) (ev : Event) (s : AppState) (sess : Session)
    (hs : s.session = some sess) :
    (∃ sess1, (fireEvent env ev s).1.session = some sess1 ∧
        ev.id ∈ sess1.firedEventIds.getD []) ∧
    fireEvent env ev (fireEvent env ev s).1 = ((fireEvent env ev s).1, []) ∧
    toastCount ((fireEvent env ev s).2 ++ (fireEvent env ev (fireEvent env ev s).1).2) =
      (if ev.id ∈ sess.firedEventIds.getD [] then 0 else 1) ∧
    (ev.id ∈ sess.firedEventIds.getD [] → fireEvent env ev s = (s, [])) ∧
    (ev.id ∉ sess.firedEventIds.getD [] →
      (fireEvent env ev s).2 =
        (if ev.type = EventType.start then [Effect.beep 70 880 0, Effect.beep 70 660 100]
          else [Effect.beep 90 520 0, Effect.beep 90 520 120, Effect.beep 90 420 240]) ++
        [Effect.toast ((if ev.type = EventType.start then "START" else "END") ++ ": " ++ ev.dish)
          (toTimeLabel env ev.when ++ " — " ++ ev.stage ++
            (if ev.notes ≠ "" then "\n" ++ ev.notes else "")),
          Effect.timeline]) := by
  have hfired : ∃ sess1, (fireEvent env ev s).1.session = some sess1 ∧
      ev.id ∈ sess1.firedEventIds.getD [] := by
    by_cases h : ev.id ∈ sess.firedEventIds.getD []
    · exact ⟨sess, by simp [fireEvent, hs, h], h⟩
    · refine ⟨{ sess with firedEventIds := some (sess.firedEventIds.getD [] ++ [ev.id]) }, ?_, ?_⟩
      · simp [fireEvent, hs, h, notify_session]
      · simp
  have hsecond : fireEvent env ev (fireEvent env ev s).1 = ((fireEvent env ev s).1, []) := by
    obtain ⟨sess1, h1, h2⟩ := hfired
    generalize (fireEvent env ev s).1 = s1 at h1 ⊢
    simp [fireEvent, h1, h2]
  refine ⟨hfired, hsecond, ?_, ?_, ?_⟩
  · rw [hsecond]
    by_cases h : ev.id ∈ sess.firedEventIds.getD []
    · simp [fireEvent, hs, h, toastCount]
    · simp only [fireEvent, hs, h, if_false, List.append_nil]
      exact notify_toastCount env ev _
  · intro h
    simp [fireEvent, hs, h]
  · intro h
    simp [fireEvent, hs, h, notify, renderTimeline]

/-! ## Arming and stopping a session -/

theorem armTimers_eq (now : Int) (events : List Event) (timers : List Timer) :
    armTimers now events timers =
      timers ++ (events.filter (fun ev => decide (now ≤ ev.when))).map
        (fun ev => Timer.mk (ev.when - now) ev) := by
  induction events generalizing timers with
  | nil => simp [armTimers]
  | cons ev rest ih =>
    by_cases h : ev.when < now
    · have h1 : ¬ now ≤ ev.when := by omega
      simp [armTimers, h, h1, ih]
    · have h1 : now ≤ ev.when := by omega
      simp [armTimers, h, h1, ih]

theorem parseServeDateTime_unset (env : Env) (dateStr timeStr : Option String)
    (h : dateStr = none ∨ dateStr = some "" ∨ timeStr = none ∨ timeStr = some "") :
    parseServeDateTime env dateStr timeStr = none := by
  unfold parseServeDateTime
  rcases h with h | h | h | h <;> subst h
  · rfl
  · cases timeStr <;> simp
  · cases dateStr <;> rfl
  · cases dateStr <;> simp

/-- Claim C8 (a failed arming is atomic). When the serve date or the serve time
of the meal is unset, or `parseServeDateTime` returns `null` for them, or the
derived event sequence is empty, `scheduleSession` shows one toast and leaves
the state as it was: the session record, the timers and everything else. -/
theorem scheduleSession_invalid (env : Env) (now : Int) (s : AppState)
    (h : (s.meal.serveDate = none ∨ s.meal.serveDate = some "" ∨ s.meal.serveTime = none ∨
          s.meal.serveTime = some "") ∨
        parseServeDateTime env s.meal.serveDate s.meal.serveTime = none ∨
        (computeEvents env s.meal s.uidCalls).1 = []) :
    (scheduleSession env now s).1 = s ∧
    (scheduleSession env now s).1.session = s.session ∧
    (scheduleSession env now s).1.timers = s.timers ∧
    ((scheduleSession env now s).2 =
        [Effect.toast "Serve time missing" "Set serve date/time on the Dishes tab."] ∨
      (scheduleSession env now s).2 =
        [Effect.toast "Nothing to schedule" "Add at least one stage with alerts enabled."]) := by
  have key : (scheduleSession env now s).1 = s ∧
      ((scheduleSession env now s).2 =
          [Effect.toast "Serve time missing" "Set serve date/time on the Dishes tab."] ∨
        (scheduleSession env now s).2 =
          [Effect.toast "Nothing to schedule" "Add at least one stage with alerts enabled."]) := by
    cases hT : parseServeDateTime env s.meal.serveDate s.meal.serveTime with
    | none => simp [scheduleSession, hT]
    | some T =>
      have he : (computeEvents env s.meal s.uidCalls).1 = [] := by
        rcases h with h | h | h
        · rw [parseServeDateTime_unset env _ _ h] at hT
          simp at hT
        · rw [h] at hT
          simp at hT
        · exact h
      have hk : (computeEvents env s.meal s.uidCalls).2 = s.uidCalls := by
        rw [computeEvents_calls, he]
        simp
      simp [scheduleSession, hT, he, hk]
  refine ⟨key.1, ?_, ?_, key.2⟩
  · rw [key.1]
  · rw [key.1]

/-- Witness of claim C6: in the armed soup session, where nothing has fired,
firing E1 twice records its identifier, the second call does nothing, and one
toast is shown. -/
theorem fireEvent_idempotent_witness :
    armedState.session =
      some (Session.mk "m2" 1717264740000 1717266600000 1717264740000 (some [])) ∧
    fireEvent exampleEnv soupStart (fireEvent exampleEnv soupStart armedState).1 =
      ((fireEvent exampleEnv soupStart armedState).1, []) ∧
    toastCount ((fireEvent exampleEnv soupStart armedState).2 ++
        (fireEvent exampleEnv soupStart (fireEvent exampleEnv soupStart armedState).1).2) = 1 :=
  have h := fireEvent_idempotent exampleEnv soupStart armedState
    (Session.mk "m2" 1717264740000 1717266600000 1717264740000 (some [])) (by decide)
  ⟨by decide, h.2.1, h.2.2.1⟩

/-- Witness of claim C8: with the serve time cleared, `scheduleSession` leaves
the state as it was. -/
theorem scheduleSession_invalid_witness :
    unsetState.meal.serveTime = some "" ∧
    (scheduleSession exampleEnv 1717264740000 unsetState).1 = unsetState :=
  ⟨by decide,
    (scheduleSession_invalid exampleEnv 1717264740000 unsetState
      (Or.inl (Or.inr (Or.inr (Or.inr (by decide)))))).1⟩

/-- Claim C9 (effect of arming). When the serve date and time resolve to `T` and
the derived event sequence is not empty, `scheduleSession` at the time `now`
stores the session with the identifier of the meal, `startedAt = now`,
`armedAt = now`, `serveWhen = T` and no fired identifier, and the timers
afterwards are, in order, one timer for each derived event with `when >= now`,
with the delay `when - now` and the callback `fireEvent(ev)`: none of the timers
registered before remains and no event before `now` has a timer. -/
theorem scheduleSession_arms (env : Env) (now : Int) (s : AppState) (T : Int)
    (hT : parseServeDateTime env s.meal.serveDate s.meal.serveTime = some T)
    (hne : (computeEvents env s.meal s.uidCalls).1 ≠ []) :
    (scheduleSession env now s).1.session = some (Session.mk s.meal.id now T now (some [])) ∧
    (scheduleSession env now s).1.timers =
      ((computeEvents env s.meal s.uidCalls).1.filter (fun ev => decide (now ≤ ev.when))).map
        (fun ev => Timer.mk (ev.when - now) ev) ∧
    (∀ t ∈ (scheduleSession env now s).1.timers,
      t.ev ∈ (computeEvents env s.meal s.uidCalls).1 ∧ now ≤ t.ev.when ∧
        t.delay = t.ev.when - now) ∧
    (∀ ev ∈ (computeEvents env s.meal s.uidCalls).1, ev.when < now →
      ∀ t ∈ (scheduleSession env now s).1.timers, t.ev ≠ ev) := by
  have hlen : ¬ (computeEvents env s.meal s.uidCalls).1.length = 0 := by
    intro h0
    exact hne (List.length_eq_zero.mp h0)
  have htimers : (scheduleSession env now s).1.timers =
      ((computeEvents env s.meal s.uidCalls).1.filter (fun ev => decide (now ≤ ev.when))).map
        (fun ev => Timer.mk (ev.when - now) ev) := by
    simp only [scheduleSession, hT, hlen, if_false, renderTimeline, clearTimers, armTimers_eq,
      List.nil_append]
  have hmem : ∀ t ∈ (scheduleSession env now s).1.timers,
      t.ev ∈ (computeEvents env s.meal s.uidCalls).1 ∧ now ≤ t.ev.when ∧
        t.delay = t.ev.when - now := by
    intro t ht
    rw [htimers] at ht
    obtain ⟨ev, hev, rfl⟩ := List.mem_map.mp ht
    obtain ⟨h1, h2⟩ := List.mem_filter.mp hev
    exact ⟨h1, by simpa using h2, rfl⟩
  refine ⟨?_, htimers, hmem, ?_⟩
  · simp only [scheduleSession, hT, hlen, if_false, renderTimeline, clearTimers]
  · intro ev _ hlt t ht hte
    have h := (hmem t ht).2.1
    rw [hte] at h
    omega

/-- Witness of claim C9: arming the soup meal at 17:59 stores the session and
registers the timers of E1 (in one minute) and E2 (in 31 minutes). -/
theorem scheduleSession_arms_witness :
    (scheduleSession exampleEnv 1717264740000 idleState).1.session =
      some (Session.mk idleState.meal.id 1717264740000 1717266600000 1717264740000 (some [])) ∧
    (scheduleSession exampleEnv 1717264740000 idleState).1.timers =
      [Timer.mk 60000 soupStart, Timer.mk 1860000 soupEnd] :=
  have h := scheduleSession_arms exampleEnv 1717264740000 idleState 1717266600000 (by decide)
    (by decide)
  ⟨h.1, h.2.1.trans (by decide)⟩

/-- Claim C10 (stop). From every state `stopSession` leaves no timer and no
session record, so that no timer can expire afterwards; the rest of the state is
untouched but for the two buttons and the interval; stopping twice gives the
same state as stopping once; and stopping a state that is idle already (no
session, no timer, no interval, the buttons as after a stop) leaves it as it
is. -/
theorem stopSession_stops (s : AppState) :
    (stopSession s).1.timers = [] ∧
    (stopSession s).1.session = none ∧
    (∀ (env : Env) (i : Nat), timerExpires env i (stopSession s).1 = none) ∧
    (stopSession s).1 =
      { s with timers := [], tickInterval := false, session := none,
               startBtnDisabled := false, stopBtnDisabled := true } ∧
    (stopSession (stopSession s).1).1 = (stopSession s).1 ∧
    (s.session = none → s.timers = [] → s.tickInterval = false →
      s.startBtnDisabled = false → s.stopBtnDisabled = true → (stopSession s).1 = s) := by
  refine ⟨rfl, rfl, ?_, rfl, rfl, ?_⟩
  · intro env i
    simp [timerExpires, stopSession, clearTimers]
  · intro h1 h2 h3 h4 h5
    cases s
    simp only [stopSession, clearTimers] at *
    subst h1 h2 h3 h4 h5
    rfl

/-- Witness of claim C10: stopping the idle page leaves it as it is, and
stopping the armed page leaves no timer and no session. -/
theorem stopSession_stops_witness :
    (stopSession idleState).1 = idleState ∧
    (stopSession armedState).1.timers = [] ∧ (stopSession armedState).1.session = none :=
  ⟨(stopSession_stops idleState).2.2.2.2.2 (by decide) (by decide) (by decide) (by decide)
      (by decide),
    (stopSession_stops armedState).1, (stopSession_stops armedState).2.1⟩

/-! ## Recovery after a reload -/

/-- The timers registered by a recovery. When a session record exists whose
`mealId` is the identifier of the active meal, `recoverSessionIfAny` at the time
`now` derives the events again and registers, in order, one timer for each of
them with `when >= now`, with the delay `when - now`, and leaves the session
record as it is.  When the events derived again are `E1` and `E2` and
`E1.when < now < E2.when`, the only timer is that of `E2`. -/
theorem recoverSessionIfAny_schedules (env : Env) (now : Int) (s : AppState) (sess : Session)
    (hs : s.session = some sess) (hm : sess.mealId = s.meal.id) :
    (recoverSessionIfAny env now s).1.timers =
      ((computeEvents env s.meal s.uidCalls).1.filter (fun ev => decide (now ≤ ev.when))).map
        (fun ev => Timer.mk (ev.when - now) ev) ∧
    (recoverSessionIfAny env now s).1.session = s.session ∧
    (∀ E1 E2, (computeEvents env s.meal s.uidCalls).1 = [E1, E2] → E1.when < now →
      now < E2.when →
      (recoverSessionIfAny env now s).1.timers = [Timer.mk (E2.when - now) E2]) := by
  have htimers : (recoverSessionIfAny env now s).1.timers =
      ((computeEvents env s.meal s.uidCalls).1.filter (fun ev => decide (now ≤ ev.when))).map
        (fun ev => Timer.mk (ev.when - now) ev) := by
    simp only [recoverSessionIfAny, hs, hm, ne_eq, not_true_eq_false, if_false, renderTimeline,
      clearTimers, armTimers_eq, List.nil_append]
  refine ⟨htimers, ?_, ?_⟩
  · simp only [recoverSessionIfAny, hs, hm, ne_eq, not_true_eq_false, if_false, renderTimeline,
      clearTimers]
  · intro E1 E2 he h1 h2
    rw [htimers, he]
    have h3 : ¬ now ≤ E1.when := by omega
    have h4 : now ≤ E2.when := by omega
    simp [List.filter, h3, h4]

/-- A recovery strictly after E1: after E1 of the soup meal has fired and the
page is reloaded at 18:10, the only timer registered by the recovery is that of
the end of the stage at 18:30. -/
theorem recoverSessionIfAny_after_first_event :
    restartedState.session =
      some (Session.mk "m2" 1717264740000 1717266600000 1717264740000 (some ["u0"])) ∧
    (recoverSessionIfAny exampleEnv 1717265400000 restartedState).1.timers =
      [Timer.mk (1717266600000 - 1717265400000)
        (Event.mk "u7" 1717266600000 EventType.end_ "Soup" "Simmer" "" 30)] :=
  have h := recoverSessionIfAny_schedules exampleEnv 1717265400000 restartedState
    (Session.mk "m2" 1717264740000 1717266600000 1717264740000 (some ["u0"])) (by decide)
    (by decide)
  ⟨by decide,
    h.2.2 (Event.mk "u6" 1717264800000 EventType.start "Soup" "Simmer" "" 30)
      (Event.mk "u7" 1717266600000 EventType.end_ "Soup" "Simmer" "" 30) (by decide) (by decide)
      (by decide)⟩

/-- Claim C7 (recovery), evaluated on the soup session: it is armed at 17:59
with the events E1 (start, 18:00) and E2 (end, 18:30), E1 fires and is recorded
in `firedEventIds`, and the page is reloaded at `now = 18:00`, the instant of
E1.  The recovery registers two timers, not only that of E2: the first is for
the start at 18:00 again, with the delay 0 and under a new identifier, which is
not in `firedEventIds`; when it expires the guard of `fireEvent` lets it pass
and a toast is shown a second time. -/
theorem recoverSessionIfAny_refires :
    armedState.timers.map (fun t => t.ev) = [soupStart, soupEnd] ∧
    restartedState.session =
      some (Session.mk "m2" 1717264740000 1717266600000 1717264740000 (some [soupStart.id])) ∧
    (recoverSessionIfAny exampleEnv 1717264800000 restartedState).1.timers =
      [Timer.mk 0 (Event.mk "u6" 1717264800000 EventType.start "Soup" "Simmer" "" 30),
        Timer.mk 1800000 (Event.mk "u7" 1717266600000 EventType.end_ "Soup" "Simmer" "" 30)] ∧
    (recoverSessionIfAny exampleEnv 1717264800000 restartedState).1.timers.map
        (fun t => eraseId t.ev) = [eraseId soupStart, eraseId soupEnd] ∧
    (recoverSessionIfAny exampleEnv 1717264800000 restartedState).1.timers.map
        (fun t => decide (t.ev.id ∈ [soupStart.id])) = [false, false] ∧
    (timerExpires exampleEnv 0
        (recoverSessionIfAny exampleEnv 1717264800000 restartedState).1).map
        (fun r => toastCount r.2) = some 1 := by
  decide

/-! ## Clamping -/

/-- The result of `clampInt` lies between its bounds. -/
theorem clampInt_range (v : JsVal) (min max : Int) (h : min ≤ max) :
    min ≤ clampInt v min max ∧ clampInt v min max ≤ max := by
  unfold clampInt
  cases parseInt10 v with
  | none => exact ⟨le_refl _, h⟩
  | some n =>
    simp only
    constructor
    · exact le_max_left _ _
    · exact max_le h (min_le_left _ _)

/-- Below `2^53` in absolute value, where every integer is a double, a number is
clamped as it stands. -/
theorem clampInt_num (n : Int) (min max : Int) (h : n.natAbs < 2 ^ 53) :
    clampInt (.num n) min max = Max.max min (Min.min max n) := by
  have h21 : n.natAbs < 10 ^ 21 := by omega
  have hv : (if n < 0 then some (-((n.natAbs : Nat) : Int)) else some ((n.natAbs : Nat) : Int)) =
      some n := by
    split
    · rw [Int.ofNat_natAbs_of_nonpos (by omega)]
      simp
    · rw [Int.natAbs_of_nonneg (by omega)]
  simp only [clampInt, parseInt10, roundToDouble, if_pos h, if_pos h21, hv]

/-- An input that `parseInt` does not read as an integer is normalized to the
lower bound. -/
theorem clampInt_nan (v : JsVal) (min max : Int) (h : parseInt10 v = none) :
    clampInt v min max = min := by
  simp [clampInt, h]

/-- The examples of the clamping property: `-5` gives `0`, `9999` gives `2000`,
as numbers and as texts of an input, and texts without a leading integer, the
booleans, `null` and `undefined` give `0`. -/
theorem clampInt_examples :
    clampInt (.num (-5)) 0 2000 = 0 ∧ clampInt (.num 9999) 0 2000 = 2000 ∧
    clampInt (.str "-5") 0 2000 = 0 ∧ clampInt (.str "9999") 0 2000 = 2000 ∧
    clampInt (.str "abc") 0 2000 = 0 ∧ clampInt (.str "") 0 2000 = 0 ∧
    clampInt (.bool true) 0 2000 = 0 ∧ clampInt .null 0 2000 = 0 ∧
    clampInt .undefined 0 2000 = 0 := by
  decide

/-- Claim C11 (clamping), evaluated at the integer `10^21`: the number prints as
`1e+21`, of which `parseInt` reads `1`, so that `clampInt` returns `1`, whereas
`max(0, min(2000, n))` is `2000`. -/
theorem clampInt_exponent_form :
    parseInt10 (.num (10 ^ 21)) = some 1 ∧
    clampInt (.num (10 ^ 21)) 0 2000 = 1 ∧
    Max.max (0 : Int) (Min.min 2000 (10 ^ 21)) = 2000 := by
  decide

/-! ## The meal catalog -/

theorem findIndex_some {α : Type} (p : α → Bool) (l : List α) (i : Nat)
    (h : findIndex p l = some i) :
    i < l.length ∧ (∃ x, l.get? i = some x ∧ p x = true) ∧
      ∀ j, j < i → ∀ y, l.get? j = some y → p y = false := by
  induction l generalizing i with
  | nil => simp [findIndex] at h
  | cons x xs ih =>
    by_cases hx : p x = true
    · simp only [findIndex, hx, if_true, Option.some.injEq] at h
      subst h
      exact ⟨by simp, ⟨x, by simp, hx⟩, fun j hj => absurd hj (Nat.not_lt_zero j)⟩
    · simp only [findIndex, hx, Bool.false_eq_true, if_false, Option.map_eq_some'] at h
      obtain ⟨i0, hi0, rfl⟩ := h
      obtain ⟨h1, ⟨y, hy, hpy⟩, h3⟩ := ih i0 hi0
      refine ⟨by simp; omega, ⟨y, by simpa using hy, hpy⟩, ?_⟩
      intro j hj z hz
      cases j with
      | zero =>
        simp only [List.get?_cons_zero, Option.some.injEq] at hz
        subst hz
        simpa using hx
      | succ j0 => exact h3 j0 (by omega) z (by simpa using hz)

theorem findIndex_none {α : Type} (p : α → Bool) (l : List α) :
    findIndex p l = none ↔ ∀ x ∈ l, p x = false := by
  induction l with
  | nil => simp [findIndex]
  | cons x xs ih =>
    by_cases hx : p x = true
    · simp [findIndex, hx]
    · simp [findIndex, hx, ih]

theorem findIndex_isSome_of_mem {α : Type} (p : α → Bool) (l : List α) (x : α) (hx : x ∈ l)
    (hp : p x = true) : ∃ i, findIndex p l = some i := by
  cases h : findIndex p l with
  | some i => exact ⟨i, rfl⟩
  | none =>
    have := (findIndex_none p l).mp h x hx
    rw [hp] at this
    cases this

theorem upsertMeal_meal (m : Meal) (s : AppState) :
    (upsertMeal m s).meal = m ∧ (upsertMeal m s).activeMealId = some m.id :=
  ⟨rfl, rfl⟩

/-- The sequence `meals.unshift(m); upsertMeal(m); setMealById(m.id)` puts `m`
in front of the catalog and makes it the current and the active meal. -/
theorem unshift_upsert_select (env : Env) (m : Meal) (s : AppState) :
    (setMealById env m.id (upsertMeal m { s with meals := m :: s.meals })).1.meals =
        m :: s.meals ∧
    (setMealById env m.id (upsertMeal m { s with meals := m :: s.meals })).1.meal = m ∧
    (setMealById env m.id (upsertMeal m { s with meals := m :: s.meals })).1.activeMealId =
        some m.id := by
  simp [setMealById, upsertMeal, findIndex, renderTimeline]

/-- Claim C15 (insertion into the catalog). After `meals.unshift(m)` and
`upsertMeal(m)` the catalog is `m` followed by the old catalog, `m` is the
current meal and `m.id` the active identifier; this is the catalog left by
`createNewMeal`, by `copyMeal` and by the import of an accepted document, whose
new meal is the current one.  And `upsertMeal(u)` for a `u` whose identifier
occurs in the catalog puts `u` in the place of the first entry with that
identifier: the length of the catalog and its other entries stay as they
are. -/
theorem upsertMeal_catalog (env : Env) (s : AppState) (m u : Meal) (today n : String)
    (raw : RawMeal) :
    ((upsertMeal m { s with meals := m :: s.meals }).meals = m :: s.meals ∧
      (upsertMeal m { s with meals := m :: s.meals }).meal = m ∧
      (upsertMeal m { s with meals := m :: s.meals }).activeMealId = some m.id) ∧
    (n ≠ "" →
      (createNewMeal env today (some n) s).1.meals =
          (createNewMeal env today (some n) s).1.meal :: s.meals ∧
        (createNewMeal env today (some n) s).1.activeMealId =
          some (createNewMeal env today (some n) s).1.meal.id ∧
        (copyMeal env (some n) s).1.meals = (copyMeal env (some n) s).1.meal :: s.meals ∧
        (copyMeal env (some n) s).1.activeMealId =
          some (copyMeal env (some n) s).1.meal.id) ∧
    (orDefault raw.name "" ≠ "" →
      (importMealJSON env today (.object raw) s).1.meals =
          (importMealJSON env today (.object raw) s).1.meal :: s.meals ∧
        (importMealJSON env today (.object raw) s).1.activeMealId =
          some (importMealJSON env today (.object raw) s).1.meal.id) ∧
    ((∃ x ∈ s.meals, x.id = u.id) →
      ∃ idx, idx < s.meals.length ∧
        (∃ old, s.meals.get? idx = some old ∧ old.id = u.id) ∧
        (∀ j, j < idx → ∀ x, s.meals.get? j = some x → x.id ≠ u.id) ∧
        (upsertMeal u s).meals = s.meals.set idx u ∧
        (upsertMeal u s).meals.length = s.meals.length ∧
        (upsertMeal u s).meals.get? idx = some u ∧
        (∀ j, j ≠ idx → (upsertMeal u s).meals.get? j = s.meals.get? j)) := by
  refine ⟨?_, ?_, ?_, ?_⟩
  · simp [upsertMeal, findIndex]
  · intro hn
    simp [createNewMeal, copyMeal, hn, setMealById, upsertMeal, findIndex, renderTimeline]
  · intro hn
    simp [importMealJSON, hn, setMealById, upsertMeal, findIndex, renderTimeline]
  · rintro ⟨x, hx, hxu⟩
    obtain ⟨idx, hidx⟩ := findIndex_isSome_of_mem (fun m => m.id == u.id) s.meals x hx
      (by simp [hxu])
    obtain ⟨h1, ⟨old, hold, hp⟩, h3⟩ := findIndex_some _ _ _ hidx
    refine ⟨idx, h1, ⟨old, hold, by simpa using hp⟩, ?_, ?_, ?_, ?_, ?_⟩
    · intro j hj y hy
      have := h3 j hj y hy
      simpa using this
    · simp [upsertMeal, hidx]
    · simp [upsertMeal, hidx]
    · simp [upsertMeal, hidx, h1]
    · intro j hj
      simp [upsertMeal, hidx, List.getElem?_set, Ne.symm hj]

/-- Witness of claim C15: a new meal "Lunch" is put in front of the catalog of
the idle page, an accepted document likewise, and an updated soup meal takes the
place of the soup meal. -/
theorem upsertMeal_catalog_witness :
    ((createNewMeal exampleEnv "2024-06-01" (some "Lunch") idleState).1.meals =
        (createNewMeal exampleEnv "2024-06-01" (some "Lunch") idleState).1.meal ::
          idleState.meals) ∧
    ((importMealJSON exampleEnv "2024-06-01" (.object bareDocument) idleState).1.meals =
        (importMealJSON exampleEnv "2024-06-01" (.object bareDocument) idleState).1.meal ::
          idleState.meals) ∧
    (∃ idx, idx < editState.meals.length ∧
        (upsertMeal { editMeal with name := "Stew II" } editState).meals =
          editState.meals.set idx { editMeal with name := "Stew II" } ∧
        (upsertMeal { editMeal with name := "Stew II" } editState).meals.length =
          editState.meals.length) :=
  have h := upsertMeal_catalog exampleEnv idleState soupMeal soupMeal "2024-06-01" "Lunch"
    bareDocument
  have h2 := upsertMeal_catalog exampleEnv editState editMeal { editMeal with name := "Stew II" }
    "2024-06-01" "Lunch" bareDocument
  ⟨(h.2.1 (by decide)).1, (h.2.2.1 (by decide)).1,
    (h2.2.2.2 ⟨editMeal, by decide, rfl⟩).elim
      (fun idx hidx => ⟨idx, hidx.1, hidx.2.2.2.1, hidx.2.2.2.2.1⟩)⟩

/-! ## Reordering -/

theorem swapAt_cons_succ {α : Type} (x : α) (xs : List α) (i j : Nat) :
    swapAt (x :: xs) (i + 1) (j + 1) = x :: swapAt xs i j := by
  unfold swapAt
  simp only [List.get?_cons_succ]
  cases xs.get? i <;> cases xs.get? j <;> simp

theorem spliceIn_eraseIdx_succ {α : Type} (l : List α) (i : Nat) (a : α)
    (ha : l.get? i = some a) (hi : i + 1 < l.length) :
    spliceIn (l.eraseIdx i) (i + 1) a = swapAt l i (i + 1) := by
  induction l generalizing i with
  | nil => simp at hi
  | cons x xs ih =>
    cases i with
    | zero =>
      cases xs with
      | nil => simp at hi
      | cons y ys =>
        simp only [List.get?_cons_zero, Option.some.injEq] at ha
        subst ha
        simp [spliceIn, swapAt]
    | succ i0 =>
      simp only [List.get?_cons_succ] at ha
      simp only [List.length_cons] at hi
      rw [swapAt_cons_succ, List.eraseIdx_cons_succ]
      simp only [spliceIn]
      rw [ih i0 ha (by omega)]

theorem spliceIn_eraseIdx_pred {α : Type} (l : List α) (i : Nat) (a : α)
    (ha : l.get? (i + 1) = some a) :
    spliceIn (l.eraseIdx (i + 1)) i a = swapAt l (i + 1) i := by
  induction l generalizing i with
  | nil => simp at ha
  | cons x xs ih =>
    cases i with
    | zero =>
      cases xs with
      | nil => simp at ha
      | cons y ys =>
        simp only [List.get?_cons_succ, List.get?_cons_zero, Option.some.injEq] at ha
        subst ha
        simp [spliceIn, swapAt]
    | succ i0 =>
      simp only [List.get?_cons_succ] at ha
      rw [swapAt_cons_succ, List.eraseIdx_cons_succ]
      simp only [spliceIn]
      rw [ih i0 ha]

/-- The exchange of two places of a list: the length is kept, the two elements
change places and every other place is as before. -/
theorem swapAt_spec {α : Type} (l : List α) (i j : Nat) (hi : i < l.length)
    (hj : j < l.length) :
    (swapAt l i j).length = l.length ∧ (swapAt l i j).get? i = l.get? j ∧
      (swapAt l i j).get? j = l.get? i ∧
      ∀ k, k ≠ i → k ≠ j → (swapAt l i j).get? k = l.get? k := by
  unfold swapAt
  have e1 : l.get? i = some (l.get ⟨i, hi⟩) := List.get?_eq_get hi
  have e2 : l.get? j = some (l.get ⟨j, hj⟩) := List.get?_eq_get hj
  rw [e1, e2]
  simp only [List.length_set, List.get?_eq_getElem?, List.getElem?_set, List.get_eq_getElem,
    true_and]
  refine ⟨?_, ?_, ?_⟩
  · by_cases h : j = i
    · subst h
      simp [hi]
    · simp [h, hi, List.getElem?_eq_getElem hj]
  · simp [hj, List.getElem?_eq_getElem hi]
  · intro k hk1 hk2
    simp [Ne.symm hk1, Ne.symm hk2]

/-- A move by one place down the array is an exchange with the next element,
and fails on the last element. -/
theorem moveInArray_down {α : Type} (p : α → Bool) (arr : List α) (i : Nat)
    (h : findIndex p arr = some i) :
    moveInArray p 1 arr = if i + 1 < arr.length then some (swapAt arr i (i + 1)) else none := by
  obtain ⟨h1, ⟨x, hx, _⟩, _⟩ := findIndex_some p arr i h
  unfold moveInArray
  simp only [h, hx]
  by_cases hlt : i + 1 < arr.length
  · have hc : ¬ ((i : Int) + 1 < 0 ∨ (i : Int) + 1 ≥ (arr.length : Int)) := by omega
    have ht : ((i : Int) + 1).toNat = i + 1 := by omega
    rw [if_neg hc, if_pos hlt, ht, spliceIn_eraseIdx_succ arr i x hx hlt]
  · have hc : ((i : Int) + 1 < 0 ∨ (i : Int) + 1 ≥ (arr.length : Int)) := by omega
    rw [if_pos hc, if_neg hlt]

/-- A move by one place up the array is an exchange with the element before,
and fails on the first element. -/
theorem moveInArray_up {α : Type} (p : α → Bool) (arr : List α) (i : Nat)
    (h : findIndex p arr = some i) :
    moveInArray p (-1) arr = if 0 < i then some (swapAt arr i (i - 1)) else none := by
  obtain ⟨h1, ⟨x, hx, _⟩, _⟩ := findIndex_some p arr i h
  unfold moveInArray
  simp only [h, hx]
  cases i with
  | zero => simp
  | succ i0 =>
    have hc : ¬ (((i0 + 1 : Nat) : Int) + -1 < 0 ∨
        ((i0 + 1 : Nat) : Int) + -1 ≥ (arr.length : Int)) := by omega
    have ht : (((i0 + 1 : Nat) : Int) + -1).toNat = i0 := by omega
    rw [if_neg hc, ht, spliceIn_eraseIdx_pred arr i0 x hx]
    simp

theorem moveInArray_not_found {α : Type} (p : α → Bool) (dir : Int) (arr : List α)
    (h : findIndex p arr = none) : moveInArray p dir arr = none := by
  simp [moveInArray, h]

/-- A move by one place in an array: inside the array it exchanges the element
found with its neighbour and leaves every other place as it is; it fails when
the neighbour would be outside the array or no element is found. -/
theorem moveInArray_swap {α : Type} (p : α → Bool) (arr : List α) (dir : Int)
    (hdir : dir = -1 ∨ dir = 1) :
    (∀ i, findIndex p arr = some i → 0 ≤ (i : Int) + dir →
      (i : Int) + dir < (arr.length : Int) →
      ∃ r, moveInArray p dir arr = some r ∧ r.length = arr.length ∧
        r.get? i = arr.get? ((i : Int) + dir).toNat ∧
        r.get? ((i : Int) + dir).toNat = arr.get? i ∧
        ∀ k, k ≠ i → k ≠ ((i : Int) + dir).toNat → r.get? k = arr.get? k) ∧
    (∀ i, findIndex p arr = some i →
      ((i : Int) + dir < 0 ∨ (arr.length : Int) ≤ (i : Int) + dir) →
      moveInArray p dir arr = none) ∧
    (findIndex p arr = none → moveInArray p dir arr = none) := by
  refine ⟨?_, ?_, moveInArray_not_found p dir arr⟩
  · intro i hi h0 h1
    have hlen := (findIndex_some p arr i hi).1
    rcases hdir with hd | hd
    · subst hd
      have hpos : 0 < i := by omega
      have ht : ((i : Int) + -1).toNat = i - 1 := by omega
      rw [ht]
      refine ⟨swapAt arr i (i - 1), ?_, swapAt_spec arr i (i - 1) hlen (by omega)⟩
      rw [moveInArray_up p arr i hi, if_pos hpos]
    · subst hd
      have hlt : i + 1 < arr.length := by omega
      have ht : ((i : Int) + 1).toNat = i + 1 := by omega
      rw [ht]
      refine ⟨swapAt arr i (i + 1), ?_, swapAt_spec arr i (i + 1) hlen hlt⟩
      rw [moveInArray_down p arr i hi, if_pos hlt]
  · intro i hi hout
    have hlen := (findIndex_some p arr i hi).1
    rcases hdir with hd | hd
    · subst hd
      have hpos : ¬ 0 < i := by omega
      rw [moveInArray_up p arr i hi, if_neg hpos]
    · subst hd
      have hlt : ¬ i + 1 < arr.length := by omega
      rw [moveInArray_down p arr i hi, if_neg hlt]

/-- Claim C12 (reordering). For `dir` equal to `-1` or `+1`: when the dish found
by `moveDish(dishId, dir)` is at the index `i` and `0 <= i + dir < length`, the
list of dishes afterwards has the same length, the dishes at `i` and `i + dir`
have changed places and every other place is as before; when `i + dir` is
outside the list, or no dish has the identifier, the state is left as it is.
The same holds for `moveStage` on the stages of the dish found, the other dishes
being left as they are; the state is also left as it is when no dish has the
identifier. -/
theorem move_is_swap (dishId stageId : String) (dir : Int) (hdir : dir = -1 ∨ dir = 1)
    (s : AppState) :
    (∀ i, findIndex (fun d => d.id == dishId) (s.meal.dishes.getD []) = some i →
      0 ≤ (i : Int) + dir → (i : Int) + dir < ((s.meal.dishes.getD []).length : Int) →
      ∃ r, (moveDish dishId dir s).meal.dishes = some r ∧
        r.length = (s.meal.dishes.getD []).length ∧
        r.get? i = (s.meal.dishes.getD []).get? ((i : Int) + dir).toNat ∧
        r.get? ((i : Int) + dir).toNat = (s.meal.dishes.getD []).get? i ∧
        ∀ k, k ≠ i → k ≠ ((i : Int) + dir).toNat → r.get? k = (s.meal.dishes.getD []).get? k) ∧
    (∀ i, findIndex (fun d => d.id == dishId) (s.meal.dishes.getD []) = some i →
      ((i : Int) + dir < 0 ∨ ((s.meal.dishes.getD []).length : Int) ≤ (i : Int) + dir) →
      moveDish dishId dir s = s) ∧
    (findIndex (fun d => d.id == dishId) (s.meal.dishes.getD []) = none →
      moveDish dishId dir s = s) ∧
    (∀ dish, (s.meal.dishes.getD []).find? (fun d => d.id == dishId) = some dish →
      (∀ j, findIndex (fun st => st.id == stageId) (dish.stages.getD []) = some j →
        0 ≤ (j : Int) + dir → (j : Int) + dir < ((dish.stages.getD []).length : Int) →
        ∃ r, (moveStage dishId stageId dir s).meal.dishes =
            some (modifyFirst (fun d => d.id == dishId) (fun d => { d with stages := some r })
              (s.meal.dishes.getD [])) ∧
          r.length = (dish.stages.getD []).length ∧
          r.get? j = (dish.stages.getD []).get? ((j : Int) + dir).toNat ∧
          r.get? ((j : Int) + dir).toNat = (dish.stages.getD []).get? j ∧
          ∀ k, k ≠ j → k ≠ ((j : Int) + dir).toNat →
            r.get? k = (dish.stages.getD []).get? k) ∧
      (∀ j, findIndex (fun st => st.id == stageId) (dish.stages.getD []) = some j →
        ((j : Int) + dir < 0 ∨ ((dish.stages.getD []).length : Int) ≤ (j : Int) + dir) →
        moveStage dishId stageId dir s = s) ∧
      (findIndex (fun st => st.id == stageId) (dish.stages.getD []) = none →
        moveStage dishId stageId dir s = s)) ∧
    ((s.meal.dishes.getD []).find? (fun d => d.id == dishId) = none →
      moveStage dishId stageId dir s = s) := by
  have hD := moveInArray_swap (fun d : Dish => d.id == dishId) (s.meal.dishes.getD []) dir hdir
  refine ⟨?_, ?_, ?_, ?_, ?_⟩
  · intro i hi h0 h1
    obtain ⟨r, hr, hrest⟩ := hD.1 i hi h0 h1
    exact ⟨r, by simp [moveDish, hr, upsertMeal], hrest⟩
  · intro i hi hout
    simp [moveDish, hD.2.1 i hi hout]
  · intro hnone
    simp [moveDish, hD.2.2 hnone]
  · intro dish hdish
    have hS := moveInArray_swap (fun st : Stage => st.id == stageId) (dish.stages.getD []) dir
      hdir
    refine ⟨?_, ?_, ?_⟩
    · intro j hj h0 h1
      obtain ⟨r, hr, hrest⟩ := hS.1 j hj h0 h1
      exact ⟨r, by simp [moveStage, hdish, hr, upsertMeal], hrest⟩
    · intro j hj hout
      simp [moveStage, hdish, hS.2.1 j hj hout]
    · intro hnone
      simp [moveStage, hdish, hS.2.2 hnone]
  · intro hnone
    simp [moveStage, hnone]

/-- Witness of claim C12 on the stew meal: moving the dish "Rice" up puts it
before the dish "Stew", moving the stage "Chop" up leaves the state as it is,
and moving the stage "Brown" down puts it after "Simmer". -/
theorem move_is_swap_witness :
    (∃ r, (moveDish "d6" (-1) editState).meal.dishes = some r ∧
        r.length = (editState.meal.dishes.getD []).length ∧
        r.get? 1 = (editState.meal.dishes.getD []).get? (((1 : Nat) : Int) + -1).toNat ∧
        r.get? (((1 : Nat) : Int) + -1).toNat = (editState.meal.dishes.getD []).get? 1) ∧
    moveStage "d5" "a" (-1) editState = editState ∧
    (moveStage "d5" "b" 1 editState).meal.dishes =
      some [Dish.mk "d5" "Stew"
        (some [Stage.mk "a" "Chop" (.num 10) true true "",
          Stage.mk "c" "Simmer" (.num 90) true true "",
          Stage.mk "b" "Brown" (.num 15) true true ""]),
        Dish.mk "d6" "Rice" (some [Stage.mk "r" "Boil" (.num 12) true true ""])] :=
  have h := move_is_swap "d6" "a" (-1) (Or.inl rfl) editState
  have h2 := move_is_swap "d5" "a" (-1) (Or.inl rfl) editState
  ⟨(h.1 1 (by decide) (by decide) (by decide)).elim
      (fun r hr => ⟨r, hr.1, hr.2.1, hr.2.2.1, hr.2.2.2.1⟩),
    (h2.2.2.2.1 stewDish (by decide)).2.1 0 (by decide) (by decide),
    by decide⟩

/-! ## Import normalization -/

theorem importStage_ok (env : Env) (k : Nat) (rs : RawStage) :
    ∃ n, (importStage env k rs).durationMin = .num n ∧ 0 ≤ n ∧ n ≤ 2000 :=
  ⟨clampInt (nullish rs.durationMin (.num 10)) 0 2000, rfl,
    (clampInt_range _ 0 2000 (by omega)).1, (clampInt_range _ 0 2000 (by omega)).2⟩

/-- What the import writes into a stage: the flags are true unless the document
has the boolean `false`, a name or notes that are present are kept (an empty
name becomes "Stage"), and the duration is `clampInt` of the duration of the
document, or of `10` when it is missing. -/
theorem importStage_defaults (env : Env) (k : Nat) (rs : RawStage) :
    (rs.alertStart = .undefined → (importStage env k rs).alertStart = true) ∧
    (importStage env k rs).alertStart = decide (rs.alertStart ≠ .bool false) ∧
    (rs.alertEnd = .undefined → (importStage env k rs).alertEnd = true) ∧
    (importStage env k rs).alertEnd = decide (rs.alertEnd ≠ .bool false) ∧
    (rs.name = none → (importStage env k rs).name = "Stage") ∧
    (∀ n, rs.name = some n → (importStage env k rs).name = if n = "" then "Stage" else n) ∧
    (rs.notes = none → (importStage env k rs).notes = "") ∧
    (∀ n, rs.notes = some n → (importStage env k rs).notes = n) ∧
    ((rs.durationMin = .undefined ∨ rs.durationMin = .null) →
      (importStage env k rs).durationMin = .num 10) ∧
    (rs.durationMin ≠ .undefined → rs.durationMin ≠ .null →
      (importStage env k rs).durationMin = .num (clampInt rs.durationMin 0 2000)) ∧
    (∃ n, (importStage env k rs).durationMin = .num n ∧ 0 ≤ n ∧ n ≤ 2000) := by
  refine ⟨?_, rfl, ?_, rfl, ?_, ?_, ?_, ?_, ?_, ?_, importStage_ok env k rs⟩
  · intro h
    simp [importStage, h]
  · intro h
    simp [importStage, h]
  · intro h
    simp [importStage, h, orDefault]
  · intro n h
    simp [importStage, h, orDefault]
  · intro h
    simp [importStage, h, orDefault]
  · intro n h
    by_cases hn : n = "" <;> simp [importStage, h, orDefault, hn]
  · intro h
    have h10 : clampInt (.num 10) 0 2000 = 10 := by decide
    rcases h with h | h <;> simp [importStage, h, nullish, h10]
  · intro h1 h2
    have hn : nullish rs.durationMin (.num 10) = rs.durationMin := by
      cases hd : rs.durationMin <;> simp_all [nullish]
    simp [importStage, hn]

theorem importStages_forall₂ (env : Env) (raws : List RawStage) (k : Nat) :
    List.Forall₂ (fun (rs : RawStage) (st : Stage) => ∃ j, st = importStage env j rs)
      raws (importStages env raws k).1 := by
  induction raws generalizing k with
  | nil => exact List.Forall₂.nil
  | cons rs rest ih =>
    simp only [importStages]
    exact List.Forall₂.cons ⟨k, rfl⟩ (ih (k + 1))

theorem importDishes_forall₂ (env : Env) (raws : List RawDish) (k : Nat) :
    List.Forall₂ (fun (rd : RawDish) (d : Dish) =>
        d.name = orDefault rd.name "Dish" ∧
        ∃ stages, d.stages = some stages ∧
          List.Forall₂ (fun (rs : RawStage) (st : Stage) => ∃ j, st = importStage env j rs)
            (rd.stages.getD []) stages)
      raws (importDishes env raws k).1 := by
  induction raws generalizing k with
  | nil => exact List.Forall₂.nil
  | cons rd rest ih =>
    simp only [importDishes]
    exact List.Forall₂.cons ⟨rfl, _, rfl, importStages_forall₂ env _ _⟩ (ih _)

theorem importMealJSON_meal (env : Env) (today : String) (raw : RawMeal) (s : AppState)
    (hacc : orDefault raw.name "" ≠ "") :
    (importMealJSON env today (.object raw) s).1.meal.dishes =
      some (importDishes env (raw.dishes.getD []) (s.uidCalls + 1)).1 := by
  simp [importMealJSON, hacc, setMealById, upsertMeal, findIndex, renderTimeline]

/-- Claim C13, as amended. For every imported document that `importMealJSON`
accepts, the dishes and stages of the new meal are those of the document in
order.  Each normalized stage has `alertStart` and `alertEnd` equal to true when
the flag is absent (and false only when the document has `false`), the name
"Stage" when the name is absent or empty and the name of the document
otherwise, empty notes when the notes are absent and the notes of the document
otherwise, and a duration that is `10` when it is missing and otherwise
`clampInt` of the duration of the document, in every case an integer from `0`
to `2000`.  Each dish has the name "Dish" when its name is absent or empty and
the name of the document otherwise. -/
theorem importMealJSON_defaults (env : Env) (today : String) (raw : RawMeal) (s : AppState)
    (hacc : orDefault raw.name "" ≠ "") :
    ∃ dishes, (importMealJSON env today (.object raw) s).1.meal.dishes = some dishes ∧
      List.Forall₂ (fun (rd : RawDish) (d : Dish) =>
          (rd.name = none → d.name = "Dish") ∧
          (∀ n, rd.name = some n → d.name = if n = "" then "Dish" else n) ∧
          ∃ stages, d.stages = some stages ∧
            List.Forall₂ (fun (rs : RawStage) (st : Stage) =>
              (rs.alertStart = .undefined → st.alertStart = true) ∧
              st.alertStart = decide (rs.alertStart ≠ .bool false) ∧
              (rs.alertEnd = .undefined → st.alertEnd = true) ∧
              st.alertEnd = decide (rs.alertEnd ≠ .bool false) ∧
              (rs.name = none → st.name = "Stage") ∧
              (∀ n, rs.name = some n → st.name = if n = "" then "Stage" else n) ∧
              (rs.notes = none → st.notes = "") ∧
              (∀ n, rs.notes = some n → st.notes = n) ∧
              ((rs.durationMin = .undefined ∨ rs.durationMin = .null) →
                st.durationMin = .num 10) ∧
              (rs.durationMin ≠ .undefined → rs.durationMin ≠ .null →
                st.durationMin = .num (clampInt rs.durationMin 0 2000)) ∧
              (∃ n, st.durationMin = .num n ∧ 0 ≤ n ∧ n ≤ 2000))
            (rd.stages.getD []) stages)
        (raw.dishes.getD []) dishes := by
  refine ⟨_, importMealJSON_meal env today raw s hacc, ?_⟩
  refine List.Forall₂.imp ?_ (importDishes_forall₂ env _ _)
  rintro rd d ⟨hname, stages, hstages, hall⟩
  refine ⟨?_, ?_, stages, hstages, ?_⟩
  · intro h
    simp [hname, h, orDefault]
  · intro n h
    by_cases hn : n = "" <;> simp [hname, h, orDefault, hn]
  · refine List.Forall₂.imp ?_ hall
    rintro rs st ⟨j, rfl⟩
    exact importStage_defaults env j rs

/-- Witness of claim C13 as amended, on a document with one dish "Grill" of one
stage "Sear" whose duration is `9999`, whose start alert is off and whose notes
are "hot": the import keeps the names and the notes, keeps the start alert off,
sets the end alert, and clamps the duration to `2000`. -/
theorem importMealJSON_defaults_witness :
    ∃ d st,
      (importMealJSON exampleEnv "2024-06-01" (.object seasonedDocument)
        idleState).1.meal.dishes = some [d] ∧
      d.name = "Grill" ∧ d.stages = some [st] ∧ st.name = "Sear" ∧ st.notes = "hot" ∧
      st.alertStart = false ∧ st.alertEnd = true ∧ st.durationMin = .num 2000 := by
  obtain ⟨dishes, hd, hall⟩ :=
    importMealJSON_defaults exampleEnv "2024-06-01" seasonedDocument idleState (by decide)
  have hraw : seasonedDocument.dishes.getD [] =
      [RawDish.mk (some "Grill")
        (some [RawStage.mk (some "Sear") (.num 9999) (.bool false) .undefined (some "hot")])] :=
    rfl
  rw [hraw] at hall
  obtain ⟨d, ds, ⟨_, hname, stages, hstages, hst⟩, hnil, rfl⟩ :=
    List.forall₂_cons_left_iff.mp hall
  obtain rfl := List.forall₂_nil_left_iff.mp hnil
  simp only [Option.getD_some] at hst
  obtain ⟨st, sts, hR, hnil2, rfl⟩ := List.forall₂_cons_left_iff.mp hst
  obtain rfl := List.forall₂_nil_left_iff.mp hnil2
  obtain ⟨_, h1, h2, _, _, h3, _, h4, _, h5, _⟩ := hR
  refine ⟨d, st, hd, ?_, hstages, ?_, ?_, ?_, ?_, ?_⟩
  · simpa using hname "Grill" rfl
  · simpa using h3 "Sear" rfl
  · exact h4 "hot" rfl
  · simpa using h1
  · exact h2 rfl
  · rw [h5 (by decide) (by decide)]
    decide

/-- Counterexample to claim C13 as stated: in the import of a document whose
only dish and stage have no name, the dish is named "Dish" and the stage is
named "Stage"; neither name is the empty string. -/
theorem importMealJSON_counterexample :
    (importMealJSON exampleEnv "2024-06-01" (.object bareDocument) idleState).1.meal.dishes =
      some [Dish.mk "u1" "Dish" (some [Stage.mk "u2" "Stage" (.num 10) true true ""])] ∧
    ((importMealJSON exampleEnv "2024-06-01" (.object bareDocument) idleState).1.meal.dishes.getD
        []).map (fun d => d.name) ≠ [""] ∧
    ((importMealJSON exampleEnv "2024-06-01" (.object bareDocument) idleState).1.meal.dishes.getD
        []).map (fun d => (d.stages.getD []).map (fun st => st.name)) ≠ [[""]] := by
  decide

/-! ## The invariant of the durations -/

theorem durationsOk_iff (meal : Meal) :
    durationsOk meal = true ↔
      ∀ d ∈ meal.dishes.getD [], ∀ st ∈ d.stages.getD [], stageOk st = true := by
  simp [durationsOk, List.all_eq_true]

theorem stageOk_iff (st : Stage) :
    stageOk st = true ↔ ∃ n, st.durationMin = .num n ∧ 0 ≤ n ∧ n ≤ 2000 := by
  unfold stageOk
  cases st.durationMin <;> simp

theorem stageOk_setStageField (field : String) (value : JsVal) (st : Stage)
    (h : stageOk st = true) : stageOk (setStageField field value st) = true := by
  unfold setStageField
  split
  · rw [stageOk_iff]
    exact ⟨_, rfl, (clampInt_range value 0 2000 (by omega)).1,
      (clampInt_range value 0 2000 (by omega)).2⟩
  · split
    · exact h
    · split
      · exact h
      · split
        · split
          · exact h
          · split
            · exact h
            · split
              · exact h
              · exact h
        · exact h

theorem mem_modifyFirst {α : Type} (p : α → Bool) (f : α → α) (l : List α) (x : α)
    (hx : x ∈ modifyFirst p f l) : x ∈ l ∨ ∃ y ∈ l, x = f y := by
  induction l with
  | nil => simp [modifyFirst] at hx
  | cons a rest ih =>
    by_cases ha : p a = true
    · simp only [modifyFirst, ha, if_true, List.mem_cons] at hx
      rcases hx with h | h
      · exact Or.inr ⟨a, List.mem_cons_self _ _, h⟩
      · exact Or.inl (List.mem_cons_of_mem _ h)
    · simp only [modifyFirst, ha, Bool.false_eq_true, if_false, List.mem_cons] at hx
      rcases hx with h | h
      · exact Or.inl (h ▸ List.mem_cons_self _ _)
      · rcases ih h with h1 | ⟨y, hy, hxy⟩
        · exact Or.inl (List.mem_cons_of_mem _ h1)
        · exact Or.inr ⟨y, List.mem_cons_of_mem _ hy, hxy⟩

theorem mem_spliceIn {α : Type} (l : List α) (i : Nat) (a x : α) (hx : x ∈ spliceIn l i a) :
    x = a ∨ x ∈ l := by
  induction l generalizing i with
  | nil => cases i <;> simp_all [spliceIn]
  | cons b rest ih =>
    cases i with
    | zero =>
      simp only [spliceIn, List.mem_cons] at hx
      rcases hx with h | h | h
      · exact Or.inl h
      · exact Or.inr (h ▸ List.mem_cons_self _ _)
      · exact Or.inr (List.mem_cons_of_mem _ h)
    | succ i0 =>
      simp only [spliceIn, List.mem_cons] at hx
      rcases hx with h | h
      · exact Or.inr (h ▸ List.mem_cons_self _ _)
      · rcases ih i0 h with h1 | h1
        · exact Or.inl h1
        · exact Or.inr (List.mem_cons_of_mem _ h1)

theorem mem_moveInArray {α : Type} (p : α → Bool) (dir : Int) (arr r : List α)
    (h : moveInArray p dir arr = some r) (x : α) (hx : x ∈ r) : x ∈ arr := by
  unfold moveInArray at h
  split at h
  · simp at h
  · rename_i idx _
    simp only at h
    split at h
    · simp at h
    · split at h
      · simp at h
      · rename_i item hitem
        simp only [Option.some.injEq] at h
        subst h
        rcases mem_spliceIn _ _ _ _ hx with h1 | h1
        · subst h1
          exact List.get?_mem hitem
        · exact List.mem_of_mem_eraseIdx h1

theorem durationsOk_modifyFirst (meal : Meal) (p : Dish → Bool) (f : Dish → Dish)
    (h : durationsOk meal = true)
    (hf : ∀ d, (∀ st ∈ d.stages.getD [], stageOk st = true) →
      ∀ st ∈ (f d).stages.getD [], stageOk st = true) :
    durationsOk { meal with dishes := some (modifyFirst p f (meal.dishes.getD [])) } = true := by
  rw [durationsOk_iff] at h ⊢
  intro d hd st hst
  simp only [Option.getD_some] at hd
  rcases mem_modifyFirst p f _ d hd with h1 | ⟨y, hy, rfl⟩
  · exact h d h1 st hst
  · exact hf y (h y hy) st hst

theorem stageOk_importStages (env : Env) (raws : List RawStage) (k : Nat) :
    ∀ st ∈ (importStages env raws k).1, stageOk st = true := by
  induction raws generalizing k with
  | nil => simp [importStages]
  | cons rs rest ih =>
    intro st hst
    simp only [importStages, List.mem_cons] at hst
    rcases hst with h | h
    · rw [h, stageOk_iff]
      exact importStage_ok env k rs
    · exact ih (k + 1) st h

theorem durationsOk_importDishes (env : Env) (raws : List RawDish) (k : Nat) :
    ∀ d ∈ (importDishes env raws k).1, ∀ st ∈ d.stages.getD [], stageOk st = true := by
  induction raws generalizing k with
  | nil => simp [importDishes]
  | cons rd rest ih =>
    intro d hd st hst
    simp only [importDishes, List.mem_cons] at hd
    rcases hd with h | h
    · rw [h] at hst
      exact stageOk_importStages env _ _ st (by simpa using hst)
    · exact ih _ d h st hst

/-- Claim C14 (invariant of the durations). The import of an accepted document
leaves a current meal in which every stage of every dish has an integer duration
from `0` to `2000`; and when the current meal has this property, it still has it
after `addDish`, `deleteDish`, `addStage`, `deleteStage`, `moveDish`,
`moveStage`, `updateDishName` and `updateStageField`, for every argument of
these functions: every field name and every value, be it negative, oversized or
not a number. -/
theorem durationsOk_invariant (env : Env) (s : AppState) :
    (∀ (today : String) (raw : RawMeal), orDefault raw.name "" ≠ "" →
      durationsOk (importMealJSON env today (.object raw) s).1.meal = true) ∧
    (durationsOk s.meal = true →
      (∀ name, durationsOk (addDish env name s).meal = true) ∧
      (∀ dishId confirmed, durationsOk (deleteDish dishId confirmed s).meal = true) ∧
      (∀ dishId, durationsOk (addStage env dishId s).meal = true) ∧
      (∀ dishId stageId, durationsOk (deleteStage dishId stageId s).meal = true) ∧
      (∀ dishId dir, durationsOk (moveDish dishId dir s).meal = true) ∧
      (∀ dishId stageId dir, durationsOk (moveStage dishId stageId dir s).meal = true) ∧
      (∀ dishId value, durationsOk (updateDishName dishId value s).meal = true) ∧
      (∀ dishId stageId field value,
        durationsOk (updateStageField dishId stageId field value s).meal = true) ∧
      (∀ today input, durationsOk (importMealJSON env today input s).1.meal = true)) := by
  have himp : ∀ (today : String) (raw : RawMeal), orDefault raw.name "" ≠ "" →
      durationsOk (importMealJSON env today (.object raw) s).1.meal = true := by
    intro today raw hacc
    rw [durationsOk_iff, importMealJSON_meal env today raw s hacc]
    exact durationsOk_importDishes env _ _
  refine ⟨himp, ?_⟩
  · intro h
    have h0 := (durationsOk_iff s.meal).mp h
    refine ⟨?_, ?_, ?_, ?_, ?_, ?_, ?_, ?_, ?_⟩
    · intro name
      unfold addDish
      split
      · exact h
      · split
        · exact h
        · rw [durationsOk_iff]
          intro d hd st hst
          simp only [upsertMeal, Option.getD_some, List.mem_append, List.mem_singleton] at hd
          rcases hd with h1 | h1
          · exact h0 d h1 st hst
          · rw [h1] at hst
            simp at hst
    · intro dishId confirmed
      unfold deleteDish
      split
      · rw [durationsOk_iff]
        intro d hd st hst
        simp only [upsertMeal, Option.getD_some] at hd
        exact h0 d (List.mem_filter.mp hd).1 st hst
      · exact h
    · intro dishId
      unfold addStage
      split
      · exact h
      · simp only [upsertMeal]
        refine durationsOk_modifyFirst s.meal _ _ h ?_
        intro d hd st hst
        simp only [Option.getD_some, List.mem_append, List.mem_singleton] at hst
        rcases hst with h1 | h1
        · exact hd st h1
        · rw [h1, stageOk_iff]
          exact ⟨10, rfl, by omega, by omega⟩
    · intro dishId stageId
      unfold deleteStage
      split
      · exact h
      · simp only [upsertMeal]
        refine durationsOk_modifyFirst s.meal _ _ h ?_
        intro d hd st hst
        simp only [Option.getD_some] at hst
        exact hd st (List.mem_filter.mp hst).1
    · intro dishId dir
      unfold moveDish
      split
      · exact h
      · rename_i arr harr
        rw [durationsOk_iff]
        intro d hd st hst
        simp only [upsertMeal, Option.getD_some] at hd
        exact h0 d (mem_moveInArray _ dir _ arr harr d hd) st hst
    · intro dishId stageId dir
      unfold moveStage
      split
      · exact h
      · rename_i dish hdish
        split
        · exact h
        · rename_i arr harr
          simp only [upsertMeal]
          refine durationsOk_modifyFirst s.meal _ _ h ?_
          intro d _ st hst
          simp only [Option.getD_some] at hst
          exact h0 dish (List.mem_of_find?_eq_some hdish) st
            (mem_moveInArray _ dir _ arr harr st hst)
    · intro dishId value
      unfold updateDishName
      split
      · exact h
      · simp only [upsertMeal]
        exact durationsOk_modifyFirst s.meal _ _ h (fun d hd st hst => hd st hst)
    · intro dishId stageId field value
      unfold updateStageField
      split
      · exact h
      · split
        · exact h
        · simp only [upsertMeal]
          refine durationsOk_modifyFirst s.meal _ _ h ?_
          intro d hd st hst
          simp only [Option.getD_some] at hst
          rcases mem_modifyFirst _ _ _ st hst with h1 | ⟨y, hy, rfl⟩
          · exact hd st h1
          · exact stageOk_setStageField field value y (hd y hy)
    · intro today input
      cases input with
      | invalid => exact h
      | notObject => exact h
      | object raw =>
        by_cases hacc : orDefault raw.name "" = ""
        · simp only [importMealJSON, hacc, if_true]
          exact h
        · exact himp today raw hacc

/-- Witness of claim C14 on the stew meal: its durations are in range, and they
still are after a duration of `-5`, of `9999` or of `abc` is typed into the
stage "Brown", after a stage is added to the dish "Rice", and after the import
of a document. -/
theorem durationsOk_invariant_witness :
    durationsOk editState.meal = true ∧
    durationsOk (updateStageField "d5" "b" "durationMin" (.str "-5") editState).meal = true ∧
    durationsOk (updateStageField "d5" "b" "durationMin" (.str "9999") editState).meal = true ∧
    durationsOk (updateStageField "d5" "b" "durationMin" (.str "abc") editState).meal = true ∧
    durationsOk (addStage exampleEnv "d6" editState).meal = true ∧
    durationsOk (importMealJSON exampleEnv "2024-06-01" (.object bareDocument)
      editState).1.meal = true :=
  have h := durationsOk_invariant exampleEnv editState
  have h2 := h.2 (by decide)
  ⟨by decide, h2.2.2.2.2.2.2.2.1 "d5" "b" "durationMin" (.str "-5"),
    h2.2.2.2.2.2.2.2.1 "d5" "b" "durationMin" (.str "9999"),
    h2.2.2.2.2.2.2.2.1 "d5" "b" "durationMin" (.str "abc"),
    h2.2.2.1 "d6", h.1 "2024-06-01" bareDocument (by decide)⟩

end MealTimer
